import Mathlib

/-!
# Verification of `src/utils/cursor-pagination.js`

Shallow embedding of the cursor-pagination module: the continuation-token
codec (`createContinuationToken` / `parseContinuationToken`), the sort
extraction helper (`orderByToSort`) and the Prisma filter builder
(`buildCursorWhere`), together with executable models of the JavaScript
runtime facilities the module calls (`JSON.stringify` / `JSON.parse`,
`Buffer` base64, UTF-8, `Object.values` / `Object.keys`, property access).

Modelling conventions:

* JavaScript runtime values are the inductive `JSValue`.  Numbers are
  modelled as integers (`Int`) — the module only ever moves numeric field
  values around, never does float arithmetic.
* A JavaScript `Date` is modelled by its ISO-8601 serialization
  (`JSValue.date iso`): within this module a `Date` is only ever produced
  by `new Date(string)` and consumed by `JSON.stringify` (which emits
  `toISOString()`), so the serialization determines every observable use.
* JavaScript exceptions are modelled with `Except`.  `JSError` is the
  error type observable by callers of the module; `InternalErr` models the
  exceptions arising inside the `try` block of `parseContinuationToken`,
  all of which the `catch` converts to a `BadRequestError`.
* `Buffer.from(t, 'base64').toString('utf8')` never throws in Node (bad
  input degrades to garbage bytes / replacement characters, after which
  `JSON.parse` throws).  The model instead makes the base64 / UTF-8 steps
  fallible; either way every failure surfaces inside the `try` block, so
  the observable behaviour (one `BadRequestError`) is the same.
-/

/-- JavaScript runtime values as used by this module.  Objects are
association lists in property-insertion order (real JS objects have unique
keys; every object this development builds goes through `setKey`, which
preserves that). -/
inductive JSValue : Type where
  | undefined : JSValue
  | null : JSValue
  | bool (b : Bool) : JSValue
  | num (n : Int) : JSValue
  | str (s : String) : JSValue
  | date (iso : String) : JSValue
  | arr (elems : List JSValue) : JSValue
  | obj (fields : List (String × JSValue)) : JSValue

/-- Property read on an association list (first binding wins, as in a JS
object, whose keys are unique). -/
def getKey : List (String × JSValue) → String → Option JSValue
  | [], _ => none
  | (k, v) :: rest, f => if k = f then some v else getKey rest f

/-- JS property assignment `o[k] = v` on an association list: overwrite the
existing binding in place, or append a new one. -/
def setKey : List (String × JSValue) → String → JSValue → List (String × JSValue)
  | [], k, v => [(k, v)]
  | (k0, v0) :: rest, k, v =>
      if k0 = k then (k0, v) :: rest else (k0, v0) :: setKey rest k v

/-- JS property access `o[f]` for an object modelled as a field list:
missing properties read as `undefined`. -/
def getProp (fields : List (String × JSValue)) (f : String) : JSValue :=
  (getKey fields f).getD .undefined

/-- JavaScript truthiness. -/
def jsTruthy : JSValue → Bool
  | .undefined => false
  | .null => false
  | .bool b => b
  | .num n => n != 0
  | .str s => s ≠ ""
  | .date _ => true
  | .arr _ => true
  | .obj _ => true

/-- Errors observable by callers of the module: the `BadRequestError` the
module raises on invalid cursors, and the engine's own `TypeError`. -/
inductive JSError : Type where
  | badRequest (msg : String) : JSError
  | typeError (msg : String) : JSError

/-- Exceptions arising inside the `try` block of `parseContinuationToken`. -/
inductive InternalErr : Type where
  | syntaxError (msg : String) : InternalErr
  | genericError (msg : String) : InternalErr
  | typeErr (msg : String) : InternalErr

/-- `Object.values(v)`: throws `TypeError` on `null`/`undefined`, returns
own enumerable property values of objects, elements of arrays, characters
of strings, and `[]` for the remaining primitives (and for `Date`, which
has no own enumerable properties). -/
def jsObjectValues : JSValue → Except JSError (List JSValue)
  | .undefined => .error (.typeError "Cannot convert undefined or null to object")
  | .null => .error (.typeError "Cannot convert undefined or null to object")
  | .obj fields => .ok (fields.map (·.2))
  | .arr elems => .ok elems
  | .str s => .ok (s.data.map (fun c => .str (String.mk [c])))
  | .bool _ => .ok []
  | .num _ => .ok []
  | .date _ => .ok []

/-- `Object.keys(v)`, with the same throwing behaviour as `Object.values`. -/
def jsObjectKeys : JSValue → Except JSError (List String)
  | .undefined => .error (.typeError "Cannot convert undefined or null to object")
  | .null => .error (.typeError "Cannot convert undefined or null to object")
  | .obj fields => .ok (fields.map (·.1))
  | .arr elems => .ok ((List.range elems.length).map (fun i => toString i))
  | .str s => .ok ((List.range s.length).map (fun i => toString i))
  | .bool _ => .ok []
  | .num _ => .ok []
  | .date _ => .ok []

/-- The strict comparison `x === 'desc'` applied to `values[0]` (which is
`undefined` when the list is empty). -/
def isStrDesc : Option JSValue → Bool
  | some (.str s) => s = "desc"
  | _ => false

/-- `orderByToSort(orderBy)`: `orderBy.map(item => Object.keys(item)[0])`.
`Array.prototype.map` propagates the first exception thrown by the
callback, hence the `Except`. -/
def orderByToSort : List JSValue → Except JSError (List JSValue)
  | [] => .ok []
  | item :: rest => do
      let ks ← jsObjectKeys item
      let tl ← orderByToSort rest
      .ok (((ks.head?.map JSValue.str).getD .undefined) :: tl)

/-- `buildCursorWhere(cursorData, sort)` from the source, line for line:
empty sort yields `{}`; otherwise the primary comparison direction is
`Object.values(cursorData[sort[0]])[0] === 'desc' ? 'lt' : 'gt'`, the base
clause is `{ [sort[0]]: { [dir]: cursorData[sort[0]] } }`, and with two or
more sort fields the result is the `OR` of the base clause and
`{ [sort[0]]: cursorData[sort[0]], [sort[1]]: { [dir]: cursorData[sort[1]] } }`
(object literals built with `setKey` to model computed-key collisions). -/
def buildCursorWhere (cursorData : List (String × JSValue)) (sort : List String) :
    Except JSError JSValue :=
  match sort with
  | [] => .ok (.obj [])
  | primaryField :: sortRest =>
    match jsObjectValues (getProp cursorData primaryField) with
    | .error e => .error e
    | .ok vals =>
      let primaryDirection := if isStrDesc vals.head? then "lt" else "gt"
      let whereClause :=
        JSValue.obj [(primaryField, .obj [(primaryDirection, getProp cursorData primaryField)])]
      match sortRest with
      | [] => .ok whereClause
      | secondaryField :: _ =>
        let secondaryDirection := primaryDirection
        .ok (.obj [("OR", .arr [whereClause,
          .obj (setKey (setKey [] primaryField (getProp cursorData primaryField))
            secondaryField (.obj [(secondaryDirection, getProp cursorData secondaryField)]))])])

/-! ## Marker values

`createContinuationToken` is documented (and used) with markers that map
field names to scalar values or `Date`s (`{ id: 123, created_at: Date }`),
matching the spec's data model ("values may be scalars or a date/time
value").  `MVal` is that value domain. -/

/-- A marker field value: a JSON scalar or a `Date` (by ISO string). -/
inductive MVal : Type where
  | null : MVal
  | bool (b : Bool) : MVal
  | num (n : Int) : MVal
  | str (s : String) : MVal
  | date (iso : String) : MVal
deriving DecidableEq

/-- A position marker: a JS object with scalar-or-`Date` values. -/
abbrev Marker := List (String × MVal)

/-- A marker value as the JS runtime value it is. -/
def mvalToJS : MVal → JSValue
  | .null => .null
  | .bool b => .bool b
  | .num n => .num n
  | .str s => .str s
  | .date iso => .date iso

/-- What `JSON.parse` reproduces for a serialized marker value: `Date`s
come back as their ISO strings. -/
def mvalParsed : MVal → JSValue
  | .null => .null
  | .bool b => .bool b
  | .num n => .num n
  | .str s => .str s
  | .date iso => .str iso

/-! ## `JSON.stringify`, modelled

The renderer produces exactly the character stream `JSON.stringify` emits
for the payload `{ data, sort }`: no whitespace, `"` / `\` / control
characters escaped (named escapes for the usual five, `\u00XX` otherwise),
`Date` values rendered via `toISOString()`. -/

/-- Lower-case hex digit. -/
def hexDig (n : Nat) : Char :=
  if n < 10 then Char.ofNat (48 + n) else Char.ofNat (87 + n)

/-- `JSON.stringify` escaping of one string character. -/
def escapeChar (c : Char) : List Char :=
  if c = '"' then ['\\', '"']
  else if c = '\\' then ['\\', '\\']
  else if c = '\x08' then ['\\', 'b']
  else if c = '\x0c' then ['\\', 'f']
  else if c = '\n' then ['\\', 'n']
  else if c = '\x0d' then ['\\', 'r']
  else if c = '\t' then ['\\', 't']
  else if c.toNat < 32 then ['\\', 'u', '0', '0', hexDig (c.toNat / 16), hexDig (c.toNat % 16)]
  else [c]

/-- Escape every character of a string body. -/
def escListOf : List Char → List Char
  | [] => []
  | c :: rest => escapeChar c ++ escListOf rest

/-- A JSON string literal. -/
def renderString (s : String) : List Char := '"' :: (escListOf s.data ++ ['"'])

/-- Decimal digits of a natural number, fuel-indexed so the definition is
structurally recursive (callers pass fuel `> n`). -/
def natCharsAux : Nat → Nat → List Char → List Char
  | 0, _, acc => acc
  | fuel + 1, n, acc =>
      if n < 10 then Char.ofNat (48 + n % 10) :: acc
      else natCharsAux fuel (n / 10) (Char.ofNat (48 + n % 10) :: acc)

/-- Decimal representation of a natural number. -/
def natChars (n : Nat) : List Char := natCharsAux (n + 1) n []

/-- Decimal representation of an integer. -/
def renderInt (n : Int) : List Char :=
  if n < 0 then '-' :: natChars n.natAbs else natChars n.toNat

/-- `JSON.stringify` of a marker value. -/
def renderMVal : MVal → List Char
  | .null => "null".data
  | .bool true => "true".data
  | .bool false => "false".data
  | .num n => renderInt n
  | .str s => renderString s
  | .date iso => renderString iso

/-- The comma-separated members of a serialized marker object. -/
def renderFields : List (String × MVal) → List Char
  | [] => []
  | (k, v) :: rest =>
      renderString k ++ ':' :: renderMVal v ++
        (match rest with
         | [] => []
         | _ :: _ => ',' :: renderFields rest)

/-- The comma-separated elements of the serialized sort array. -/
def renderSortElems : List String → List Char
  | [] => []
  | s :: rest =>
      renderString s ++
        (match rest with
         | [] => []
         | _ :: _ => ',' :: renderSortElems rest)

/-- A serialized marker object. -/
def renderMarkerObj (m : Marker) : List Char := '{' :: (renderFields m ++ ['}'])

/-- A serialized sort array. -/
def renderSortArr (sort : List String) : List Char := '[' :: (renderSortElems sort ++ [']'])

/-- `JSON.stringify({ data, sort })`. -/
def renderPayload (m : Marker) (sort : List String) : List Char :=
  '{' :: (renderString "data" ++ ':' :: renderMarkerObj m ++
    ',' :: renderString "sort" ++ ':' :: renderSortArr sort ++ ['}'])

/-! ## `JSON.parse`, modelled

A fuel-indexed recursive-descent reader covering the whitespace-free JSON
this module's encoder emits (integers for numbers).  Its behaviour on a
string determines `jsonParse`; strings it cannot read make `JSON.parse`
throw, which `parseContinuationToken` catches.  Duplicate object keys are
resolved with `setKey` (last value wins, first position kept), as in JS. -/

/-- Value of one hex digit. -/
def hexVal (c : Char) : Option Nat :=
  if '0' ≤ c ∧ c ≤ '9' then some (c.toNat - 48)
  else if 'a' ≤ c ∧ c ≤ 'f' then some (c.toNat - 87)
  else if 'A' ≤ c ∧ c ≤ 'F' then some (c.toNat - 55)
  else none

/-- Read the body of a JSON string literal (after the opening quote),
accumulating decoded characters in reverse.  Fuel-indexed (one unit per
decoded character; callers pass more fuel than there are input
characters). -/
def parseStrAux : Nat → List Char → List Char → Option (String × List Char)
  | 0, _, _ => none
  | fuel + 1, cs, acc =>
    match cs with
    | [] => none
    | c :: rest =>
      if c = '"' then some (String.mk acc.reverse, rest)
      else if c = '\\' then
        match rest with
        | [] => none
        | e :: rest2 =>
          if e = '"' then parseStrAux fuel rest2 ('"' :: acc)
          else if e = '\\' then parseStrAux fuel rest2 ('\\' :: acc)
          else if e = '/' then parseStrAux fuel rest2 ('/' :: acc)
          else if e = 'b' then parseStrAux fuel rest2 ('\x08' :: acc)
          else if e = 'f' then parseStrAux fuel rest2 ('\x0c' :: acc)
          else if e = 'n' then parseStrAux fuel rest2 ('\n' :: acc)
          else if e = 'r' then parseStrAux fuel rest2 ('\x0d' :: acc)
          else if e = 't' then parseStrAux fuel rest2 ('\t' :: acc)
          else if e = 'u' then
            match rest2 with
            | h1 :: h2 :: h3 :: h4 :: rest3 =>
              match hexVal h1, hexVal h2, hexVal h3, hexVal h4 with
              | some a, some b, some c2, some d =>
                  parseStrAux fuel rest3 (Char.ofNat (a * 4096 + b * 256 + c2 * 16 + d) :: acc)
              | _, _, _, _ => none
            | _ => none
          else none
      else if c.toNat < 32 then none
      else parseStrAux fuel rest (c :: acc)

/-- Read a maximal run of decimal digits into an accumulator. -/
def parseDigits : List Char → Nat → Nat × List Char
  | [], acc => (acc, [])
  | c :: rest, acc =>
      if c.isDigit then parseDigits rest (acc * 10 + (c.toNat - 48))
      else (acc, c :: rest)

/-- Read a natural number (at least one digit). -/
def parseNum : List Char → Option (Nat × List Char)
  | [] => none
  | c :: rest => if c.isDigit then some (parseDigits rest (c.toNat - 48)) else none

/-- Which production the JSON reader is currently reading: a value, the
element list of a non-empty array, or the member list of a non-empty
object (with the members read so far). -/
inductive PMode : Type where
  | value : PMode
  | elems : PMode
  | members (acc : List (String × JSValue)) : PMode

/-- The JSON reader: one fuel-indexed structural recursion covering
values, array element lists (up to and including `]`) and object member
lists (up to and including `}`, accumulated with `setKey` — last value
wins, first position kept, as for duplicate keys in JS). -/
def parseCore : Nat → PMode → List Char → Option (JSValue × List Char)
  | 0, _, _ => none
  | fuel + 1, .value, cs =>
    (match cs with
     | [] => none
     | c :: rest =>
       if c = 'n' then
         match rest with
         | 'u' :: 'l' :: 'l' :: rest2 => some (.null, rest2)
         | _ => none
       else if c = 't' then
         match rest with
         | 'r' :: 'u' :: 'e' :: rest2 => some (.bool true, rest2)
         | _ => none
       else if c = 'f' then
         match rest with
         | 'a' :: 'l' :: 's' :: 'e' :: rest2 => some (.bool false, rest2)
         | _ => none
       else if c = '"' then
         match parseStrAux (rest.length + 1) rest [] with
         | some (s, rest2) => some (.str s, rest2)
         | none => none
       else if c = '[' then
         match rest with
         | ']' :: rest2 => some (.arr [], rest2)
         | _ => parseCore fuel .elems rest
       else if c = '{' then
         match rest with
         | '}' :: rest2 => some (.obj [], rest2)
         | _ => parseCore fuel (.members []) rest
       else if c = '-' then
         match parseNum rest with
         | some (n, rest2) => some (.num (-(n : Int)), rest2)
         | none => none
       else if c.isDigit then
         match parseNum (c :: rest) with
         | some (n, rest2) => some (.num (n : Int), rest2)
         | none => none
       else none)
  | fuel + 1, .elems, cs =>
    (match parseCore fuel .value cs with
     | none => none
     | some (v, rest) =>
       match rest with
       | ']' :: rest2 => some (.arr [v], rest2)
       | ',' :: rest2 =>
         match parseCore fuel .elems rest2 with
         | some (.arr vs, rest3) => some (.arr (v :: vs), rest3)
         | _ => none
       | _ => none)
  | fuel + 1, .members acc, cs =>
    (match cs with
     | '"' :: rest =>
       match parseStrAux (rest.length + 1) rest [] with
       | none => none
       | some (k, rest2) =>
         match rest2 with
         | ':' :: rest3 =>
           match parseCore fuel .value rest3 with
           | none => none
           | some (v, rest4) =>
             match rest4 with
             | '}' :: rest5 => some (.obj (setKey acc k v), rest5)
             | ',' :: rest5 => parseCore fuel (.members (setKey acc k v)) rest5
             | _ => none
         | _ => none
     | _ => none)

/-- `JSON.parse` on a whole string: one value consuming the entire input. -/
def jsonParse (s : String) : Option JSValue :=
  match parseCore (s.data.length + 1) .value s.data with
  | some (v, []) => some v
  | _ => none

/-! ## UTF-8 (`Buffer.from(string)` / `.toString('utf8')`), modelled

Bytes are natural numbers `< 256`. -/

/-- UTF-8 encoding of one Unicode scalar value. -/
def utf8EncChar (n : Nat) : List Nat :=
  if n < 128 then [n]
  else if n < 2048 then [192 + n / 64, 128 + n % 64]
  else if n < 65536 then [224 + n / 4096, 128 + (n / 64) % 64, 128 + n % 64]
  else [240 + n / 262144, 128 + (n / 4096) % 64, 128 + (n / 64) % 64, 128 + n % 64]

/-- UTF-8 encoding of a character list. -/
def utf8EncList : List Char → List Nat
  | [] => []
  | c :: rest => utf8EncChar c.toNat ++ utf8EncList rest

/-- `Buffer.from(s)`: the UTF-8 bytes of a string. -/
def utf8Encode (s : String) : List Nat := utf8EncList s.data

/-- Decode one UTF-8-encoded scalar value from the front of a byte list.
(Overlong or surrogate encodings are not rejected; this module only ever
decodes its own encoder's output, and garbage input merely has to fail or
produce a string `JSON.parse` then rejects — Node itself substitutes
U+FFFD instead of failing, with the same observable outcome downstream.) -/
def utf8DecStep : List Nat → Option (Char × List Nat)
  | [] => none
  | b :: rest =>
    if b < 128 then some (Char.ofNat b, rest)
    else if b < 192 then none
    else if b < 224 then
      match rest with
      | b1 :: rest1 =>
        if 128 ≤ b1 ∧ b1 < 192 then
          some (Char.ofNat ((b - 192) * 64 + (b1 - 128)), rest1)
        else none
      | [] => none
    else if b < 240 then
      match rest with
      | b1 :: b2 :: rest2 =>
        if (128 ≤ b1 ∧ b1 < 192) ∧ (128 ≤ b2 ∧ b2 < 192) then
          some (Char.ofNat ((b - 224) * 4096 + (b1 - 128) * 64 + (b2 - 128)), rest2)
        else none
      | _ => none
    else if b < 248 then
      match rest with
      | b1 :: b2 :: b3 :: rest3 =>
        if (128 ≤ b1 ∧ b1 < 192) ∧ (128 ≤ b2 ∧ b2 < 192) ∧ (128 ≤ b3 ∧ b3 < 192) then
          some (Char.ofNat ((b - 240) * 262144 + (b1 - 128) * 4096 +
            (b2 - 128) * 64 + (b3 - 128)), rest3)
        else none
      | _ => none
    else none

/-- UTF-8 decoding loop, fuel-indexed (one unit of fuel per decoded
character; callers pass more fuel than there are bytes), accumulator in
reverse. -/
def utf8DecAux : Nat → List Nat → List Char → Option (List Char)
  | 0, _, _ => none
  | _ + 1, [], acc => some acc.reverse
  | fuel + 1, b :: rest, acc =>
    match utf8DecStep (b :: rest) with
    | some (c, rest2) => utf8DecAux fuel rest2 (c :: acc)
    | none => none

/-- `buffer.toString('utf8')`, as a fallible decode. -/
def utf8Decode (bytes : List Nat) : Option String :=
  (utf8DecAux (bytes.length + 1) bytes []).map String.mk

/-! ## Base64 (`Buffer.prototype.toString('base64')` / `Buffer.from(·, 'base64')`) -/

/-- The base64 alphabet. -/
def b64Char (n : Nat) : Char :=
  if n < 26 then Char.ofNat (65 + n)
  else if n < 52 then Char.ofNat (97 + (n - 26))
  else if n < 62 then Char.ofNat (48 + (n - 52))
  else if n = 62 then '+'
  else '/'

/-- Value of a base64 alphabet character. -/
def b64Val (c : Char) : Option Nat :=
  if 'A' ≤ c ∧ c ≤ 'Z' then some (c.toNat - 65)
  else if 'a' ≤ c ∧ c ≤ 'z' then some (c.toNat - 97 + 26)
  else if '0' ≤ c ∧ c ≤ '9' then some (c.toNat - 48 + 52)
  else if c = '+' then some 62
  else if c = '/' then some 63
  else none

/-- Standard base64 with padding, three input bytes per four output
characters. -/
def b64encodeBytes : List Nat → List Char
  | [] => []
  | [b0] => [b64Char (b0 / 4), b64Char (b0 % 4 * 16), '=', '=']
  | [b0, b1] => [b64Char (b0 / 4), b64Char (b0 % 4 * 16 + b1 / 16), b64Char (b1 % 16 * 4), '=']
  | b0 :: b1 :: b2 :: rest =>
      b64Char (b0 / 4) :: b64Char (b0 % 4 * 16 + b1 / 16) ::
        b64Char (b1 % 16 * 4 + b2 / 64) :: b64Char (b2 % 64) :: b64encodeBytes rest

/-- Base64 decoding (fallible; Node is lenient instead, with the same
downstream outcome — see the module comment). -/
def b64decodeChars : List Char → Option (List Nat)
  | [] => some []
  | c0 :: c1 :: c2 :: c3 :: rest =>
    if c2 = '=' then
      if c3 = '=' ∧ rest = [] then
        match b64Val c0, b64Val c1 with
        | some s0, some s1 => some [s0 * 4 + s1 / 16]
        | _, _ => none
      else none
    else if c3 = '=' then
      if rest = [] then
        match b64Val c0, b64Val c1, b64Val c2 with
        | some s0, some s1, some s2 => some [s0 * 4 + s1 / 16, s1 % 16 * 16 + s2 / 4]
        | _, _, _ => none
      else none
    else
      match b64Val c0, b64Val c1, b64Val c2, b64Val c3 with
      | some s0, some s1, some s2, some s3 =>
        match b64decodeChars rest with
        | some tl =>
            some ((s0 * 4 + s1 / 16) :: (s1 % 16 * 16 + s2 / 4) :: (s2 % 4 * 64 + s3) :: tl)
        | none => none
      | _, _, _, _ => none
  | _ => none

/-- `buffer.toString('base64')`. -/
def b64encode (bytes : List Nat) : String := String.mk (b64encodeBytes bytes)

/-- `Buffer.from(token, 'base64')`. -/
def b64decode (token : String) : Option (List Nat) := b64decodeChars token.data

/-! ## The token codec -/

/-- `createContinuationToken(data, sort)`: `null` when `!data` or
`sort.length === 0`, otherwise the base64 of the UTF-8 bytes of
`JSON.stringify({ data, sort })`.  The `data` argument is a marker object
or `null`/`undefined` (`none`); an object is always truthy. -/
def createContinuationToken (data : Option Marker) (sort : List String) : Option String :=
  match data with
  | none => none
  | some m =>
      if sort.length = 0 then none
      else some (b64encode (utf8Encode (String.mk (renderPayload m sort))))

/-- The fixed user-facing message of the `BadRequestError`. -/
def invalidCursorMsg : String := "유효하지 않은 커서(cursor) 값입니다."

/-- The body of the `try` block of `parseContinuationToken`: decode the
base64 token to the JSON text, `JSON.parse` it, throw
`new Error("Invalid structure")` unless `parsed` is truthy with an
object-typed `data` property (`typeof null === 'object'`!) and an array
`sort` property, then reconstruct `parsed.data.created_at` as a `Date`
when it is a truthy string — reading `created_at` off a `null` `data`
throws a `TypeError`.  Returns the (possibly mutated) `parsed` object.
A non-object `parsed` always throws: it is either falsy (`!parsed`) or has
an `undefined` (hence non-object-typed) `data` property. -/
def decodePipeline (t : String) : Except InternalErr JSValue :=
  match b64decode t with
  | none => .error (.syntaxError "Unexpected token in JSON")
  | some bytes =>
  match utf8Decode bytes with
  | none => .error (.syntaxError "Unexpected token in JSON")
  | some jsonString =>
  match jsonParse jsonString with
  | none => .error (.syntaxError "Unexpected token in JSON")
  | some parsed =>
  match parsed with
  | .obj pf =>
    (match getKey pf "data", getKey pf "sort" with
     | some JSValue.null, some (.arr _) =>
         -- `typeof null === 'object'`: the structure check passes, and the
         -- `created_at` read off `null` throws a `TypeError`
         .error (.typeErr "Cannot read properties of null (reading 'created_at')")
     | some (.obj dfs), some (.arr _) =>
         .ok (.obj (setKey pf "data"
           (match getKey dfs "created_at" with
            | some (.str s) =>
                if s ≠ "" then JSValue.obj (setKey dfs "created_at" (.date s))
                else JSValue.obj dfs
            | _ => JSValue.obj dfs)))
     | some (.arr es), some (.arr _) => .ok (.obj (setKey pf "data" (.arr es)))
     | some (.date iso), some (.arr _) => .ok (.obj (setKey pf "data" (.date iso)))
     | _, _ => .error (.genericError "Invalid structure"))
  | _ => .error (.genericError "Invalid structure")

/-- `parseContinuationToken(token)`: `null` for a falsy token, otherwise
the `try` body with every exception converted to the one
`BadRequestError`. -/
def parseContinuationToken (token : Option String) : Except JSError (Option JSValue) :=
  match token with
  | none => .ok none
  | some t =>
      if t = "" then .ok none
      else
        match decodePipeline t with
        | .ok v => .ok (some v)
        | .error _ => .error (.badRequest invalidCursorMsg)

/-- Head-of-input digit test, used to state maximal-munch side conditions. -/
def headIsDigit : List Char → Bool
  | [] => false
  | c :: _ => c.isDigit

/-- The JSON-parsed image of a marker: each value as its JSON form, fields
accumulated the way the reader does. -/
def markerParsed (m : Marker) : List (String × JSValue) :=
  m.foldl (fun a p => setKey a p.1 (mvalParsed p.2)) []


/-- Field lookup on a marker (first binding wins, like `getKey`). -/
def mlookup : Marker → String → Option MVal
  | [], _ => none
  | (k, v) :: rest, f => if k = f then some v else mlookup rest f

/-- `typeof v === 'object'` for an optional property value (`none` is an
absent property, i.e. `undefined`): true for `null`, objects, arrays and
`Date`s. -/
def typeofObject : Option JSValue → Bool
  | some .null => true
  | some (.obj _) => true
  | some (.arr _) => true
  | some (.date _) => true
  | _ => false

/-- `Array.isArray` on an optional property value. -/
def isArrayOpt : Option JSValue → Bool
  | some (.arr _) => true
  | _ => false

/-- Property read on a JS value: objects look keys up, everything else
reads `undefined` (modelled as `none`; only applied to non-null values). -/
def propRead : JSValue → String → Option JSValue
  | .obj fs, f => getKey fs f
  | _, _ => none

/-- Is the value `null` or `undefined` (the values `Object.values` throws
on)? -/
def isNullish : JSValue → Bool
  | .null => true
  | .undefined => true
  | _ => false

/-- Is the value a JS object (in the narrow sense: `{...}`)? -/
def isObjV : JSValue → Bool
  | .obj _ => true
  | _ => false

/-- Is the value a `Date`? -/
def isDateV : JSValue → Bool
  | .date _ => true
  | _ => false

/-! ## Round-trip of the byte-level codecs -/

theorem b64Val_b64Char : ∀ n < 64, b64Val (b64Char n) = some n := by decide

theorem b64Char_ne_eq : ∀ n < 64, b64Char n ≠ '=' := by decide

theorem b64_roundtrip : ∀ bs : List Nat, (∀ b ∈ bs, b < 256) →
    b64decodeChars (b64encodeBytes bs) = some bs := by
  intro bs
  induction bs using b64encodeBytes.induct with
  | case1 => intro _; rfl
  | case2 b0 =>
      intro h
      have hb0 := h b0 (by simp)
      have h1 : b64Val (b64Char (b0 / 4)) = some (b0 / 4) := b64Val_b64Char _ (by omega)
      have h2 : b64Val (b64Char (b0 % 4 * 16)) = some (b0 % 4 * 16) :=
        b64Val_b64Char _ (by omega)
      simp only [b64encodeBytes, b64decodeChars, h1, h2, if_true, and_self, reduceIte]
      simp only [Option.some.injEq, List.cons.injEq, and_true]
      omega
  | case3 b0 b1 =>
      intro h
      have hb0 := h b0 (by simp)
      have hb1 := h b1 (by simp)
      have hne : b64Char (b1 % 16 * 4) ≠ '=' := b64Char_ne_eq _ (by omega)
      have h1 : b64Val (b64Char (b0 / 4)) = some (b0 / 4) := b64Val_b64Char _ (by omega)
      have h2 : b64Val (b64Char (b0 % 4 * 16 + b1 / 16)) = some (b0 % 4 * 16 + b1 / 16) :=
        b64Val_b64Char _ (by omega)
      have h3 : b64Val (b64Char (b1 % 16 * 4)) = some (b1 % 16 * 4) :=
        b64Val_b64Char _ (by omega)
      simp only [b64encodeBytes, b64decodeChars, hne, h1, h2, h3, if_true, if_false, and_self,
        and_true, reduceIte, ite_false, ite_true]
      simp only [Option.some.injEq, List.cons.injEq, and_true]
      constructor <;> omega
  | case4 b0 b1 b2 rest ih =>
      intro h
      have hb0 := h b0 (by simp)
      have hb1 := h b1 (by simp)
      have hb2 := h b2 (by simp)
      have hne2 : b64Char (b1 % 16 * 4 + b2 / 64) ≠ '=' := b64Char_ne_eq _ (by omega)
      have hne3 : b64Char (b2 % 64) ≠ '=' := b64Char_ne_eq _ (by omega)
      have h1 : b64Val (b64Char (b0 / 4)) = some (b0 / 4) := b64Val_b64Char _ (by omega)
      have h2 : b64Val (b64Char (b0 % 4 * 16 + b1 / 16)) = some (b0 % 4 * 16 + b1 / 16) :=
        b64Val_b64Char _ (by omega)
      have h3 : b64Val (b64Char (b1 % 16 * 4 + b2 / 64)) = some (b1 % 16 * 4 + b2 / 64) :=
        b64Val_b64Char _ (by omega)
      have h4 : b64Val (b64Char (b2 % 64)) = some (b2 % 64) := b64Val_b64Char _ (by omega)
      have hrest := ih (fun b hb => h b (by simp [hb]))
      simp only [b64encodeBytes, b64decodeChars, hne2, hne3, h1, h2, h3, h4, hrest,
        if_false, ite_false, reduceIte]
      simp only [Option.some.injEq, List.cons.injEq, and_true]
      refine ⟨by omega, by omega, by omega⟩

theorem char_toNat_lt (c : Char) : c.toNat < 1114112 := by
  show c.val.toNat < 1114112
  rcases c.valid with h | ⟨_, h⟩
  · exact Nat.lt_trans h (by decide)
  · exact h

theorem utf8EncChar_bytes_lt (n : Nat) (hn : n < 1114112) : ∀ b ∈ utf8EncChar n, b < 256 := by
  unfold utf8EncChar
  split_ifs with h1 h2 h3 <;> intro b hb <;>
    simp only [List.mem_cons, List.mem_singleton, List.not_mem_nil, or_false] at hb <;>
    rcases hb with rfl | rfl | rfl | rfl <;> omega

theorem utf8Encode_bytes_lt (s : String) : ∀ b ∈ utf8Encode s, b < 256 := by
  show ∀ b ∈ utf8EncList s.data, b < 256
  induction s.data with
  | nil => intro b hb; simp [utf8EncList] at hb
  | cons c l ih =>
      intro b hb
      simp only [utf8EncList, List.mem_append] at hb
      rcases hb with hb | hb
      · exact utf8EncChar_bytes_lt c.toNat (char_toNat_lt c) b hb
      · exact ih b hb

theorem utf8DecStep_enc (c : Char) (rest : List Nat) :
    utf8DecStep (utf8EncChar c.toNat ++ rest) = some (c, rest) := by
  have hv := char_toNat_lt c
  unfold utf8EncChar
  split_ifs with h1 h2 h3
  · simp only [List.cons_append, List.nil_append, utf8DecStep]
    rw [if_pos h1, Char.ofNat_toNat]
  · simp only [List.cons_append, List.nil_append, utf8DecStep]
    rw [if_neg (by omega), if_neg (by omega), if_pos (by omega),
      if_pos (by exact ⟨by omega, by omega⟩)]
    have harg : (192 + c.toNat / 64 - 192) * 64 + (128 + c.toNat % 64 - 128) = c.toNat := by
      omega
    rw [harg, Char.ofNat_toNat]
  · simp only [List.cons_append, List.nil_append, utf8DecStep]
    rw [if_neg (by omega), if_neg (by omega), if_neg (by omega), if_pos (by omega),
      if_pos (by exact ⟨⟨by omega, by omega⟩, by omega, by omega⟩)]
    have harg : (224 + c.toNat / 4096 - 224) * 4096 + (128 + c.toNat / 64 % 64 - 128) * 64 +
        (128 + c.toNat % 64 - 128) = c.toNat := by
      omega
    rw [harg, Char.ofNat_toNat]
  · simp only [List.cons_append, List.nil_append, utf8DecStep]
    rw [if_neg (by omega), if_neg (by omega), if_neg (by omega), if_neg (by omega),
      if_pos (by omega),
      if_pos (by exact ⟨⟨by omega, by omega⟩, ⟨by omega, by omega⟩, by omega, by omega⟩)]
    have harg : (240 + c.toNat / 262144 - 240) * 262144 + (128 + c.toNat / 4096 % 64 - 128) * 4096 +
        (128 + c.toNat / 64 % 64 - 128) * 64 + (128 + c.toNat % 64 - 128) = c.toNat := by
      omega
    rw [harg, Char.ofNat_toNat]

theorem utf8EncChar_ne_nil (n : Nat) : utf8EncChar n ≠ [] := by
  unfold utf8EncChar
  split_ifs <;> simp

theorem utf8DecAux_encList (l : List Char) (fuel : Nat) (rest : List Nat) (acc : List Char) :
    utf8DecAux (l.length + fuel) (utf8EncList l ++ rest) acc
      = utf8DecAux fuel rest (l.reverse ++ acc) := by
  induction l generalizing acc with
  | nil => simp [utf8EncList]
  | cons c l ih =>
      have hstep := utf8DecStep_enc c (utf8EncList l ++ rest)
      have hlen : (c :: l).length + fuel = (l.length + fuel) + 1 := by simp; omega
      rw [hlen]
      obtain ⟨b, bs, hb⟩ : ∃ b bs, utf8EncChar c.toNat = b :: bs := by
        cases hh : utf8EncChar c.toNat with
        | nil => exact absurd hh (utf8EncChar_ne_nil _)
        | cons b bs => exact ⟨b, bs, rfl⟩
      simp only [utf8EncList, List.append_assoc, hb, List.cons_append, utf8DecAux]
      rw [← List.cons_append, ← hb, hstep]
      show utf8DecAux (l.length + fuel) (utf8EncList l ++ rest) (c :: acc)
        = utf8DecAux fuel rest ((c :: l).reverse ++ acc)
      rw [ih]
      simp only [List.reverse_cons, List.append_assoc, List.cons_append, List.nil_append]

theorem utf8EncList_length_ge (l : List Char) : l.length ≤ (utf8EncList l).length := by
  induction l with
  | nil => simp [utf8EncList]
  | cons c l ih =>
      have := utf8EncChar_ne_nil c.toNat
      have hpos : 0 < (utf8EncChar c.toNat).length := List.length_pos.mpr this
      simp only [utf8EncList, List.length_append, List.length_cons]
      omega

theorem utf8_roundtrip (s : String) : utf8Decode (utf8Encode s) = some s := by
  show (utf8DecAux ((utf8EncList s.data).length + 1) (utf8EncList s.data) []).map String.mk
    = some s
  have hge := utf8EncList_length_ge s.data
  have hsplit : (utf8EncList s.data).length + 1
      = s.data.length + ((utf8EncList s.data).length + 1 - s.data.length) := by omega
  obtain ⟨f, hf⟩ : ∃ f, (utf8EncList s.data).length + 1 - s.data.length = f + 1 :=
    ⟨(utf8EncList s.data).length - s.data.length, by omega⟩
  rw [hsplit, hf, ← List.append_nil (utf8EncList s.data), utf8DecAux_encList]
  simp only [utf8DecAux, List.append_nil, List.reverse_reverse, Option.map_some']

/-! ## Round-trip of the JSON codec -/

theorem toNat_ofNat_valid (n : Nat) (h : n < 55296) : (Char.ofNat n).toNat = n := by
  have hv : n.isValidChar := Or.inl h
  rw [Char.ofNat, dif_pos hv]
  show (Char.ofNatAux n hv).val.toNat = n
  simp [Char.ofNatAux, UInt32.toNat]

theorem uint32_le_iff (a b : UInt32) : a ≤ b ↔ a.toNat ≤ b.toNat := by
  simp [UInt32.le_def, BitVec.le_def, UInt32.toNat]

theorem isDigit_iff (c : Char) : c.isDigit = true ↔ 48 ≤ c.toNat ∧ c.toNat ≤ 57 := by
  show (decide (c.val ≥ 48) && decide (c.val ≤ 57)) = true ↔ _
  rw [Bool.and_eq_true, decide_eq_true_iff, decide_eq_true_iff, GE.ge, uint32_le_iff,
    uint32_le_iff]
  exact Iff.rfl


theorem natCharsAux_fuel (f1 : Nat) : ∀ f2 n acc, n < f1 → n < f2 →
    natCharsAux f1 n acc = natCharsAux f2 n acc := by
  induction f1 with
  | zero => intro f2 n acc h1 _; omega
  | succ f1 ih =>
      intro f2 n acc h1 h2
      cases f2 with
      | zero => omega
      | succ f2 =>
          simp only [natCharsAux]
          by_cases hn : n < 10
          · simp [hn]
          · simp only [hn, if_false, ite_false]
            exact ih f2 (n / 10) _ (by omega) (by omega)

theorem natCharsAux_acc (fuel : Nat) : ∀ n acc, n < fuel →
    natCharsAux fuel n acc = natCharsAux fuel n [] ++ acc := by
  induction fuel with
  | zero => intro n acc h; omega
  | succ fuel ih =>
      intro n acc h
      simp only [natCharsAux]
      by_cases hn : n < 10
      · simp [hn]
      · simp only [hn, if_false, ite_false]
        rw [ih (n / 10) _ (by omega), ih (n / 10) [Char.ofNat (48 + n % 10)] (by omega),
          List.append_assoc]
        simp

theorem natChars_small (n : Nat) (h : n < 10) : natChars n = [Char.ofNat (48 + n)] := by
  have hmod : n % 10 = n := Nat.mod_eq_of_lt h
  simp [natChars, natCharsAux, h, hmod]

theorem natChars_split (n : Nat) (h : 10 ≤ n) :
    natChars n = natChars (n / 10) ++ [Char.ofNat (48 + n % 10)] := by
  show natCharsAux (n + 1) n [] = _
  simp only [natCharsAux, Nat.not_lt.mpr h, if_false, ite_false]
  rw [natCharsAux_acc n (n / 10) _ (by omega),
    natCharsAux_fuel n (n / 10 + 1) (n / 10) [] (by omega) (by omega)]
  rfl

theorem natChars_digits (n : Nat) : ∀ c ∈ natChars n, c.isDigit = true := by
  induction n using Nat.strong_induction_on with
  | _ n ih =>
      by_cases h : n < 10
      · rw [natChars_small n h]
        intro c hc
        simp only [List.mem_singleton] at hc
        subst hc
        rw [isDigit_iff, toNat_ofNat_valid _ (by omega)]
        omega
      · rw [natChars_split n (by omega)]
        intro c hc
        simp only [List.mem_append, List.mem_singleton] at hc
        rcases hc with hc | hc
        · exact ih (n / 10) (by omega) c hc
        · subst hc
          rw [isDigit_iff, toNat_ofNat_valid _ (by omega)]
          omega

theorem natChars_ne_nil (n : Nat) : natChars n ≠ [] := by
  by_cases h : n < 10
  · rw [natChars_small n h]; simp
  · rw [natChars_split n (by omega)]; simp

theorem parseDigits_stop (rest : List Char) (a : Nat) (hrest : headIsDigit rest = false) :
    parseDigits rest a = (a, rest) := by
  cases rest with
  | nil => rfl
  | cons c l =>
      simp only [headIsDigit] at hrest
      simp [parseDigits, hrest]

theorem parseDigits_digits (ds : List Char) : ∀ a rest,
    (∀ c ∈ ds, c.isDigit = true) → headIsDigit rest = false →
    parseDigits (ds ++ rest) a
      = (ds.foldl (fun x c => x * 10 + (c.toNat - 48)) a, rest) := by
  induction ds with
  | nil =>
      intro a rest _ hrest
      simpa using parseDigits_stop rest a hrest
  | cons c ds ih =>
      intro a rest hds hrest
      have hc : c.isDigit = true := hds c (by simp)
      simp only [List.cons_append, parseDigits, hc, if_true, ite_true, List.foldl_cons]
      exact ih _ rest (fun d hd => hds d (by simp [hd])) hrest

theorem natChars_foldl (n : Nat) : ∀ a,
    (natChars n).foldl (fun x c => x * 10 + (c.toNat - 48)) a
      = a * 10 ^ (natChars n).length + n := by
  induction n using Nat.strong_induction_on with
  | _ n ih =>
      intro a
      by_cases h : n < 10
      · rw [natChars_small n h]
        simp only [List.foldl_cons, List.foldl_nil, List.length_singleton, pow_one]
        rw [toNat_ofNat_valid _ (by omega)]
        omega
      · rw [natChars_split n (by omega)]
        simp only [List.foldl_append, List.foldl_cons, List.foldl_nil, List.length_append,
          List.length_singleton]
        rw [ih (n / 10) (by omega) a, toNat_ofNat_valid _ (by omega)]
        have hpow : 10 ^ ((natChars (n / 10)).length + 1)
            = 10 ^ (natChars (n / 10)).length * 10 := by ring
        rw [hpow]
        have := Nat.div_add_mod n 10
        ring_nf
        omega

theorem parseNum_natChars (n : Nat) (rest : List Char) (hrest : headIsDigit rest = false) :
    parseNum (natChars n ++ rest) = some (n, rest) := by
  obtain ⟨c, ds, hc⟩ : ∃ c ds, natChars n = c :: ds := by
    cases hh : natChars n with
    | nil => exact absurd hh (natChars_ne_nil n)
    | cons c ds => exact ⟨c, ds, rfl⟩
  have hdig := natChars_digits n
  rw [hc] at hdig
  have hcd : c.isDigit = true := hdig c (by simp)
  rw [hc]
  simp only [List.cons_append, parseNum, hcd, if_true, ite_true]
  rw [parseDigits_digits ds (c.toNat - 48) rest (fun d hd => hdig d (by simp [hd])) hrest]
  have hfold := natChars_foldl n 0
  rw [hc] at hfold
  simp only [List.foldl_cons, Nat.zero_mul, Nat.zero_add] at hfold
  rw [hfold]

theorem string_mk_data (s : String) : String.mk s.data = s := rfl

theorem char_ne_of_toNat_ne {c d : Char} (h : c.toNat ≠ d.toNat) : c ≠ d := by
  intro he
  exact h (by rw [he])

theorem hexVal_hexDig : ∀ k < 16, hexVal (hexDig k) = some k := by decide

theorem escapeChar_length_ge (c : Char) : 1 ≤ (escapeChar c).length := by
  unfold escapeChar
  split_ifs <;> simp

theorem escListOf_length_ge (l : List Char) : l.length ≤ (escListOf l).length := by
  induction l with
  | nil => simp [escListOf]
  | cons c l ih =>
      have := escapeChar_length_ge c
      simp only [escListOf, List.length_append, List.length_cons]
      omega

theorem parseStrAux_escape (fuel : Nat) (c : Char) (t acc : List Char) :
    parseStrAux (fuel + 1) (escapeChar c ++ t) acc = parseStrAux fuel t (c :: acc) := by
  have hv := char_toNat_lt c
  unfold escapeChar
  split_ifs with h1 h2 h3 h4 h5 h6 h7 h8
  · subst h1; rfl
  · subst h2; rfl
  · subst h3; rfl
  · subst h4; rfl
  · subst h5; rfl
  · subst h6; rfl
  · subst h7; rfl
  · -- \u00XX escape for other control characters
    have hhi : hexVal (hexDig (c.toNat / 16)) = some (c.toNat / 16) :=
      hexVal_hexDig _ (by omega)
    have hlo : hexVal (hexDig (c.toNat % 16)) = some (c.toNat % 16) :=
      hexVal_hexDig _ (by omega)
    show (match hexVal '0', hexVal '0', hexVal (hexDig (c.toNat / 16)),
        hexVal (hexDig (c.toNat % 16)) with
      | some a, some b, some c2, some d =>
          parseStrAux fuel t (Char.ofNat (a * 4096 + b * 256 + c2 * 16 + d) :: acc)
      | _, _, _, _ => none) = parseStrAux fuel t (c :: acc)
    rw [hhi, hlo]
    show parseStrAux fuel t
        (Char.ofNat (0 * 4096 + 0 * 256 + c.toNat / 16 * 16 + c.toNat % 16) :: acc)
      = parseStrAux fuel t (c :: acc)
    have harg : 0 * 4096 + 0 * 256 + c.toNat / 16 * 16 + c.toNat % 16 = c.toNat := by omega
    rw [harg, Char.ofNat_toNat]
  · -- plain character
    show (if c = '"' then some (String.mk acc.reverse, t)
      else if c = '\\' then
        match t with
        | [] => none
        | e :: rest2 =>
          if e = '"' then parseStrAux fuel rest2 ('"' :: acc)
          else if e = '\\' then parseStrAux fuel rest2 ('\\' :: acc)
          else if e = '/' then parseStrAux fuel rest2 ('/' :: acc)
          else if e = 'b' then parseStrAux fuel rest2 ('\x08' :: acc)
          else if e = 'f' then parseStrAux fuel rest2 ('\x0c' :: acc)
          else if e = 'n' then parseStrAux fuel rest2 ('\n' :: acc)
          else if e = 'r' then parseStrAux fuel rest2 ('\x0d' :: acc)
          else if e = 't' then parseStrAux fuel rest2 ('\t' :: acc)
          else if e = 'u' then
            match rest2 with
            | h1 :: h2 :: h3 :: h4 :: rest3 =>
              match hexVal h1, hexVal h2, hexVal h3, hexVal h4 with
              | some a, some b, some c2, some d =>
                  parseStrAux fuel rest3 (Char.ofNat (a * 4096 + b * 256 + c2 * 16 + d) :: acc)
              | _, _, _, _ => none
            | _ => none
          else none
      else if c.toNat < 32 then none
      else parseStrAux fuel t (c :: acc)) = parseStrAux fuel t (c :: acc)
    rw [if_neg h1, if_neg h2, if_neg (show ¬c.toNat < 32 by omega)]

theorem parseStrAux_escList (l : List Char) : ∀ fuel acc rest, l.length + 1 ≤ fuel →
    parseStrAux fuel (escListOf l ++ '"' :: rest) acc
      = some (String.mk (acc.reverse ++ l), rest) := by
  induction l with
  | nil =>
      intro fuel acc rest hfuel
      obtain ⟨f, rfl⟩ : ∃ f, fuel = f + 1 := ⟨fuel - 1, by omega⟩
      show some (String.mk acc.reverse, rest) = some (String.mk (acc.reverse ++ []), rest)
      simp
  | cons c l ih =>
      intro fuel acc rest hfuel
      obtain ⟨f, rfl⟩ : ∃ f, fuel = f + 1 := ⟨fuel - 1, by omega⟩
      rw [escListOf, List.append_assoc, parseStrAux_escape, ih f _ rest (by simp at hfuel ⊢; omega)]
      simp

theorem parseStrAux_renderString (s : String) : ∀ fuel rest, s.data.length + 1 ≤ fuel →
    parseStrAux fuel (escListOf s.data ++ '"' :: rest) [] = some (s, rest) := by
  intro fuel rest hfuel
  rw [parseStrAux_escList s.data fuel [] rest hfuel]
  simp [string_mk_data]

theorem strBound (s : String) (rest : List Char) :
    s.data.length + 1 ≤ (escListOf s.data ++ '"' :: rest).length + 1 := by
  have := escListOf_length_ge s.data
  simp only [List.length_append, List.length_cons]
  omega

theorem parseCore_renderMVal (v : MVal) (fuel : Nat) (rest : List Char)
    (hrest : headIsDigit rest = false) :
    parseCore (fuel + 1) .value (renderMVal v ++ rest) = some (mvalParsed v, rest) := by
  cases v with
  | null => rfl
  | bool b => cases b <;> rfl
  | str s =>
      rw [renderMVal, renderString, List.cons_append, List.append_assoc,
        List.singleton_append]
      show (match parseStrAux ((escListOf s.data ++ '"' :: rest).length + 1)
          (escListOf s.data ++ '"' :: rest) [] with
        | some (s, rest2) => some (JSValue.str s, rest2)
        | none => none) = some (mvalParsed (.str s), rest)
      rw [parseStrAux_renderString s _ rest (strBound s rest)]
      rfl
  | date iso =>
      rw [renderMVal, renderString, List.cons_append, List.append_assoc,
        List.singleton_append]
      show (match parseStrAux ((escListOf iso.data ++ '"' :: rest).length + 1)
          (escListOf iso.data ++ '"' :: rest) [] with
        | some (s, rest2) => some (JSValue.str s, rest2)
        | none => none) = some (mvalParsed (.date iso), rest)
      rw [parseStrAux_renderString iso _ rest (strBound iso rest)]
      rfl
  | num n =>
      rw [renderMVal, renderInt]
      by_cases hn : n < 0
      · rw [if_pos hn, List.cons_append]
        show (match parseNum (natChars n.natAbs ++ rest) with
          | some (m, rest2) => some (JSValue.num (-(m : Int)), rest2)
          | none => none) = some (mvalParsed (.num n), rest)
        rw [parseNum_natChars n.natAbs rest hrest]
        simp only [mvalParsed, Option.some.injEq, Prod.mk.injEq, JSValue.num.injEq, and_true]
        omega
      · rw [if_neg hn]
        obtain ⟨c, ds, hc⟩ : ∃ c ds, natChars n.toNat = c :: ds := by
          cases hh : natChars n.toNat with
          | nil => exact absurd hh (natChars_ne_nil _)
          | cons c ds => exact ⟨c, ds, rfl⟩
        have hdig : c.isDigit = true := natChars_digits n.toNat c (by rw [hc]; simp)
        have hb := (isDigit_iff c).mp hdig
        rw [hc, List.cons_append]
        show (if c = 'n' then
            match ds ++ rest with
            | 'u' :: 'l' :: 'l' :: rest2 => some (JSValue.null, rest2)
            | _ => none
          else if c = 't' then
            match ds ++ rest with
            | 'r' :: 'u' :: 'e' :: rest2 => some (JSValue.bool true, rest2)
            | _ => none
          else if c = 'f' then
            match ds ++ rest with
            | 'a' :: 'l' :: 's' :: 'e' :: rest2 => some (JSValue.bool false, rest2)
            | _ => none
          else if c = '"' then
            match parseStrAux ((ds ++ rest).length + 1) (ds ++ rest) [] with
            | some (s, rest2) => some (JSValue.str s, rest2)
            | none => none
          else if c = '[' then
            match ds ++ rest with
            | ']' :: rest2 => some (JSValue.arr [], rest2)
            | _ => parseCore fuel .elems (ds ++ rest)
          else if c = '{' then
            match ds ++ rest with
            | '}' :: rest2 => some (JSValue.obj [], rest2)
            | _ => parseCore fuel (.members []) (ds ++ rest)
          else if c = '-' then
            match parseNum (ds ++ rest) with
            | some (m, rest2) => some (JSValue.num (-(m : Int)), rest2)
            | none => none
          else if c.isDigit then
            match parseNum (c :: (ds ++ rest)) with
            | some (m, rest2) => some (JSValue.num (m : Int), rest2)
            | none => none
          else none) = some (mvalParsed (.num n), rest)
        rw [if_neg (char_ne_of_toNat_ne (show c.toNat ≠ ('n' : Char).toNat by
            rw [show ('n' : Char).toNat = 110 from rfl]; omega)),
          if_neg (char_ne_of_toNat_ne (show c.toNat ≠ ('t' : Char).toNat by
            rw [show ('t' : Char).toNat = 116 from rfl]; omega)),
          if_neg (char_ne_of_toNat_ne (show c.toNat ≠ ('f' : Char).toNat by
            rw [show ('f' : Char).toNat = 102 from rfl]; omega)),
          if_neg (char_ne_of_toNat_ne (show c.toNat ≠ ('"' : Char).toNat by
            rw [show ('"' : Char).toNat = 34 from rfl]; omega)),
          if_neg (char_ne_of_toNat_ne (show c.toNat ≠ ('[' : Char).toNat by
            rw [show ('[' : Char).toNat = 91 from rfl]; omega)),
          if_neg (char_ne_of_toNat_ne (show c.toNat ≠ ('{' : Char).toNat by
            rw [show ('{' : Char).toNat = 123 from rfl]; omega)),
          if_neg (char_ne_of_toNat_ne (show c.toNat ≠ ('-' : Char).toNat by
            rw [show ('-' : Char).toNat = 45 from rfl]; omega)),
          if_pos hdig]
        rw [← List.cons_append, ← hc, parseNum_natChars n.toNat rest hrest]
        simp only [mvalParsed, Option.some.injEq, Prod.mk.injEq, JSValue.num.injEq, and_true]
        omega

theorem headIsDigit_brace (rest : List Char) : headIsDigit ('}' :: rest) = false := rfl

theorem headIsDigit_comma (rest : List Char) : headIsDigit (',' :: rest) = false := rfl

theorem headIsDigit_rbracket (rest : List Char) : headIsDigit (']' :: rest) = false := rfl

theorem parseCore_members_render (m : Marker) : ∀ fuel acc rest, m ≠ [] →
    m.length + 1 ≤ fuel →
    parseCore fuel (.members acc) (renderFields m ++ '}' :: rest)
      = some (.obj (m.foldl (fun a p => setKey a p.1 (mvalParsed p.2)) acc), rest) := by
  induction m with
  | nil => intro fuel acc rest hne; exact absurd rfl hne
  | cons kv tl ih =>
      obtain ⟨k, v⟩ := kv
      intro fuel acc rest _ hfuel
      obtain ⟨f, rfl⟩ : ∃ f, fuel = f + 1 := ⟨fuel - 1, by simp at hfuel; omega⟩
      obtain ⟨f', rfl⟩ : ∃ f', f = f' + 1 := ⟨f - 1, by simp at hfuel; omega⟩
      cases tl with
      | nil =>
          rw [renderFields, renderString]
          simp only [List.cons_append, List.append_assoc, List.singleton_append,
            List.nil_append, List.append_nil]
          show (match parseStrAux
              ((escListOf k.data ++ '"' :: (':' :: (renderMVal v ++ '}' :: rest))).length + 1)
              (escListOf k.data ++ '"' :: (':' :: (renderMVal v ++ '}' :: rest))) [] with
            | none => none
            | some (k, rest2) =>
              match rest2 with
              | ':' :: rest3 =>
                match parseCore (f' + 1) .value rest3 with
                | none => none
                | some (v, rest4) =>
                  match rest4 with
                  | '}' :: rest5 => some (JSValue.obj (setKey acc k v), rest5)
                  | ',' :: rest5 => parseCore (f' + 1) (.members (setKey acc k v)) rest5
                  | _ => none
              | _ => none)
            = some (.obj ([(k, v)].foldl (fun a p => setKey a p.1 (mvalParsed p.2)) acc), rest)
          rw [parseStrAux_renderString k _ _ (strBound k _)]
          show (match parseCore (f' + 1) .value (renderMVal v ++ '}' :: rest) with
            | none => none
            | some (v, rest4) =>
              match rest4 with
              | '}' :: rest5 => some (JSValue.obj (setKey acc k v), rest5)
              | ',' :: rest5 => parseCore (f' + 1) (.members (setKey acc k v)) rest5
              | _ => none) = _
          rw [parseCore_renderMVal v f' ('}' :: rest) (headIsDigit_brace rest)]
          rfl
      | cons kv2 tl2 =>
          rw [renderFields, renderString]
          simp only [List.cons_append, List.append_assoc, List.singleton_append,
            List.nil_append]
          show (match parseStrAux
              ((escListOf k.data ++ '"' :: (':' :: (renderMVal v ++ ',' ::
                 (renderFields (kv2 :: tl2) ++ '}' :: rest)))).length + 1)
              (escListOf k.data ++ '"' :: (':' :: (renderMVal v ++ ',' ::
                 (renderFields (kv2 :: tl2) ++ '}' :: rest)))) [] with
            | none => none
            | some (k, rest2) =>
              match rest2 with
              | ':' :: rest3 =>
                match parseCore (f' + 1) .value rest3 with
                | none => none
                | some (v, rest4) =>
                  match rest4 with
                  | '}' :: rest5 => some (JSValue.obj (setKey acc k v), rest5)
                  | ',' :: rest5 => parseCore (f' + 1) (.members (setKey acc k v)) rest5
                  | _ => none
              | _ => none) = _
          rw [parseStrAux_renderString k _ _ (strBound k _)]
          show (match parseCore (f' + 1) .value
              (renderMVal v ++ ',' :: (renderFields (kv2 :: tl2) ++ '}' :: rest)) with
            | none => none
            | some (v, rest4) =>
              match rest4 with
              | '}' :: rest5 => some (JSValue.obj (setKey acc k v), rest5)
              | ',' :: rest5 => parseCore (f' + 1) (.members (setKey acc k v)) rest5
              | _ => none) = _
          rw [parseCore_renderMVal v f' (',' :: (renderFields (kv2 :: tl2) ++ '}' :: rest))
            (headIsDigit_comma _)]
          show parseCore (f' + 1) (.members (setKey acc k (mvalParsed v)))
              (renderFields (kv2 :: tl2) ++ '}' :: rest) = _
          rw [ih (f' + 1) (setKey acc k (mvalParsed v)) rest (by simp)
            (by simp at hfuel ⊢; omega)]
          rfl

theorem parseCore_elems_render (l : List String) : ∀ fuel rest, l ≠ [] →
    l.length + 1 ≤ fuel →
    parseCore fuel .elems (renderSortElems l ++ ']' :: rest)
      = some (.arr (l.map JSValue.str), rest) := by
  induction l with
  | nil => intro fuel rest hne; exact absurd rfl hne
  | cons s tl ih =>
      intro fuel rest _ hfuel
      obtain ⟨f, rfl⟩ : ∃ f, fuel = f + 1 := ⟨fuel - 1, by simp at hfuel; omega⟩
      obtain ⟨f', rfl⟩ : ∃ f', f = f' + 1 := ⟨f - 1, by simp at hfuel; omega⟩
      show (match parseCore (f' + 1) .value (renderSortElems (s :: tl) ++ ']' :: rest) with
        | none => none
        | some (v, rest1) =>
          match rest1 with
          | ']' :: rest2 => some (JSValue.arr [v], rest2)
          | ',' :: rest2 =>
            match parseCore (f' + 1) .elems rest2 with
            | some (.arr vs, rest3) => some (JSValue.arr (v :: vs), rest3)
            | _ => none
          | _ => none) = some (.arr ((s :: tl).map JSValue.str), rest)
      cases tl with
      | nil =>
          rw [renderSortElems]
          simp only [List.append_nil]
          rw [show (renderString s ++ ']' :: rest : List Char)
              = renderMVal (.str s) ++ ']' :: rest from rfl,
            parseCore_renderMVal (.str s) f' (']' :: rest) (headIsDigit_rbracket rest)]
          rfl
      | cons s2 tl2 =>
          rw [renderSortElems]
          simp only [List.append_assoc, List.cons_append]
          rw [show (renderString s ++ (',' :: (renderSortElems (s2 :: tl2) ++ ']' :: rest))
                : List Char)
              = renderMVal (.str s) ++ ',' :: (renderSortElems (s2 :: tl2) ++ ']' :: rest)
              from rfl,
            parseCore_renderMVal (.str s) f' _ (headIsDigit_comma _)]
          show (match parseCore (f' + 1) .elems (renderSortElems (s2 :: tl2) ++ ']' :: rest) with
            | some (.arr vs, rest3) => some (JSValue.arr (JSValue.str s :: vs), rest3)
            | _ => none) = _
          rw [ih (f' + 1) rest (by simp) (by simp at hfuel ⊢; omega)]
          rfl


theorem parseCore_markerObj (m : Marker) (fuel : Nat) (rest : List Char)
    (hfuel : m.length + 2 ≤ fuel) :
    parseCore fuel .value (renderMarkerObj m ++ rest)
      = some (.obj (markerParsed m), rest) := by
  obtain ⟨f, rfl⟩ : ∃ f, fuel = f + 1 := ⟨fuel - 1, by omega⟩
  rw [renderMarkerObj, List.cons_append, List.append_assoc, List.singleton_append]
  show (match renderFields m ++ '}' :: rest with
    | '}' :: rest2 => some (JSValue.obj [], rest2)
    | _ => parseCore f (.members []) (renderFields m ++ '}' :: rest))
    = some (.obj (markerParsed m), rest)
  cases m with
  | nil => rfl
  | cons kv tl =>
      obtain ⟨k, v⟩ := kv
      obtain ⟨t2, ht2⟩ : ∃ t2, renderFields ((k, v) :: tl) = '"' :: t2 := by
        cases tl <;> · rw [renderFields, renderString, List.cons_append]; exact ⟨_, rfl⟩
      rw [ht2, List.cons_append]
      show parseCore f (.members []) ('"' :: (t2 ++ '}' :: rest))
        = some (.obj (markerParsed ((k, v) :: tl)), rest)
      rw [← List.cons_append, ← ht2,
        parseCore_members_render ((k, v) :: tl) f [] rest (by simp) (by simp at hfuel ⊢; omega)]
      rfl

theorem parseCore_members_step (f : Nat) (acc : List (String × JSValue)) (k : String)
    (X : List Char) :
    parseCore (f + 1) (.members acc) (renderString k ++ (':' :: X))
      = (match parseCore f .value X with
         | none => none
         | some (v, rest4) =>
           match rest4 with
           | '}' :: rest5 => some (JSValue.obj (setKey acc k v), rest5)
           | ',' :: rest5 => parseCore f (.members (setKey acc k v)) rest5
           | _ => none) := by
  rw [renderString, List.cons_append, List.append_assoc, List.singleton_append]
  show (match parseStrAux ((escListOf k.data ++ '"' :: (':' :: X)).length + 1)
      (escListOf k.data ++ '"' :: (':' :: X)) [] with
    | none => none
    | some (k, rest2) =>
      match rest2 with
      | ':' :: rest3 =>
        match parseCore f .value rest3 with
        | none => none
        | some (v, rest4) =>
          match rest4 with
          | '}' :: rest5 => some (JSValue.obj (setKey acc k v), rest5)
          | ',' :: rest5 => parseCore f (.members (setKey acc k v)) rest5
          | _ => none
      | _ => none) = _
  rw [parseStrAux_renderString k _ _ (strBound k _)]
  rfl

theorem parseCore_payload (m : Marker) (sort : List String) (fuel : Nat)
    (hsort : sort ≠ []) (hfuel : m.length + sort.length + 6 ≤ fuel) :
    parseCore fuel .value (renderPayload m sort)
      = some (.obj [("data", .obj (markerParsed m)),
          ("sort", .arr (sort.map JSValue.str))], []) := by
  obtain ⟨g, rfl⟩ : ∃ g, fuel = g + 2 := ⟨fuel - 2, by omega⟩
  obtain ⟨h, hg⟩ : ∃ h, g = h + 1 := ⟨g - 1, by omega⟩
  obtain ⟨i, hh⟩ : ∃ i, h = i + 1 := ⟨h - 1, by omega⟩
  rw [renderPayload]
  show parseCore (g + 1) (.members [])
      (renderString "data" ++ ':' :: renderMarkerObj m ++ ',' :: renderString "sort"
        ++ ':' :: renderSortArr sort ++ ['}'])
    = some (.obj [("data", .obj (markerParsed m)), ("sort", .arr (sort.map JSValue.str))], [])
  simp only [List.append_assoc, List.cons_append]
  rw [parseCore_members_step g [] "data" _,
    parseCore_markerObj m g _ (by simp at hfuel ⊢; omega)]
  show parseCore g (.members [("data", .obj (markerParsed m))])
      (renderString "sort" ++ (':' :: (renderSortArr sort ++ ['}'])))
    = some (.obj [("data", .obj (markerParsed m)), ("sort", .arr (sort.map JSValue.str))], [])
  rw [hg, parseCore_members_step h [("data", .obj (markerParsed m))] "sort" _]
  cases sort with
  | nil => exact absurd rfl hsort
  | cons s tl =>
      obtain ⟨t2, ht2⟩ : ∃ t2, renderSortElems (s :: tl) = '"' :: t2 := by
        cases tl <;> · rw [renderSortElems, renderString, List.cons_append]; exact ⟨_, rfl⟩
      have hsortarr : parseCore h .value (renderSortArr (s :: tl) ++ ['}'])
          = some (.arr ((s :: tl).map JSValue.str), ['}']) := by
        rw [hh, renderSortArr, List.cons_append]
        show (match (renderSortElems (s :: tl) ++ [']']) ++ ['}'] with
          | ']' :: rest2 => some (JSValue.arr [], rest2)
          | _ => parseCore i .elems ((renderSortElems (s :: tl) ++ [']']) ++ ['}']))
          = some (.arr ((s :: tl).map JSValue.str), ['}'])
        rw [ht2, List.cons_append, List.cons_append]
        show parseCore i .elems ('"' :: ((t2 ++ [']']) ++ ['}']))
          = some (.arr ((s :: tl).map JSValue.str), ['}'])
        rw [List.append_assoc, List.singleton_append, ← List.cons_append, ← ht2,
          parseCore_elems_render (s :: tl) i ['}'] (by simp) (by simp at hfuel ⊢; omega)]
      rw [hsortarr]
      rfl

theorem renderString_length_ge (s : String) : 2 ≤ (renderString s).length := by
  rw [renderString]
  simp

theorem renderFields_length_ge (m : Marker) : m.length ≤ (renderFields m).length := by
  induction m with
  | nil => simp [renderFields]
  | cons kv tl ih =>
      obtain ⟨k, v⟩ := kv
      have hs := renderString_length_ge k
      cases tl with
      | nil =>
          rw [renderFields]
          simp only [List.length_append, List.length_cons, List.length_nil]
          omega
      | cons kv2 tl2 =>
          rw [renderFields]
          simp only [List.length_append, List.length_cons] at *
          omega

theorem renderSortElems_length_ge (l : List String) : l.length ≤ (renderSortElems l).length := by
  induction l with
  | nil => simp [renderSortElems]
  | cons s tl ih =>
      have hs := renderString_length_ge s
      cases tl with
      | nil =>
          rw [renderSortElems]
          simp only [List.length_append, List.length_cons, List.length_nil]
          omega
      | cons s2 tl2 =>
          rw [renderSortElems]
          simp only [List.length_append, List.length_cons] at *
          omega

theorem renderPayload_length_ge (m : Marker) (sort : List String) :
    m.length + sort.length + 5 ≤ (renderPayload m sort).length := by
  have h1 := renderFields_length_ge m
  have h2 := renderSortElems_length_ge sort
  have h3 := renderString_length_ge "data"
  have h4 := renderString_length_ge "sort"
  rw [renderPayload, renderMarkerObj, renderSortArr]
  simp only [List.length_append, List.length_cons, List.length_nil]
  omega

theorem jsonParse_renderPayload (m : Marker) (sort : List String) (hsort : sort ≠ []) :
    jsonParse (String.mk (renderPayload m sort))
      = some (.obj [("data", .obj (markerParsed m)),
          ("sort", .arr (sort.map JSValue.str))]) := by
  show (match parseCore ((String.mk (renderPayload m sort)).data.length + 1) .value
      (String.mk (renderPayload m sort)).data with
    | some (v, []) => some v
    | _ => none) = _
  rw [show (String.mk (renderPayload m sort)).data = renderPayload m sort from rfl,
    parseCore_payload m sort _ hsort
      (by have := renderPayload_length_ge m sort; omega)]

/-! ## Association-list facts used by the round-trip theorem -/


theorem mlookup_mem (m : Marker) (k : String) (v : MVal) (h : mlookup m k = some v) :
    (k, v) ∈ m := by
  induction m with
  | nil => simp [mlookup] at h
  | cons kv tl ih =>
      obtain ⟨k0, v0⟩ := kv
      rw [mlookup] at h
      by_cases hk : k0 = k
      · rw [if_pos hk] at h
        subst hk
        cases h
        simp
      · rw [if_neg hk] at h
        simp [ih h]

theorem mem_mlookup (m : Marker) (k : String) (v : MVal)
    (hmem : (k, v) ∈ m) (hnodup : (m.map Prod.fst).Nodup) : mlookup m k = some v := by
  induction m with
  | nil => simp at hmem
  | cons kv tl ih =>
      obtain ⟨k0, v0⟩ := kv
      simp only [List.mem_cons] at hmem
      simp only [List.map_cons, List.nodup_cons] at hnodup
      rcases hmem with heq | hmem
      · cases heq
        simp [mlookup]
      · have hk : k0 ≠ k := by
          intro h
          subst h
          exact hnodup.1 (by simpa using List.mem_map_of_mem Prod.fst hmem)
        rw [mlookup, if_neg hk]
        exact ih hmem hnodup.2

theorem getKey_markerMap (m : Marker) (f : MVal → JSValue) (k : String) :
    getKey (m.map fun p => (p.1, f p.2)) k = (mlookup m k).map f := by
  induction m with
  | nil => simp [getKey, mlookup]
  | cons kv tl ih =>
      obtain ⟨k0, v0⟩ := kv
      simp only [List.map_cons, getKey, mlookup]
      by_cases hk : k0 = k
      · simp [hk]
      · simp [hk, ih]

theorem setKey_not_mem (fs : List (String × JSValue)) (k : String) (v : JSValue)
    (h : k ∉ fs.map Prod.fst) : setKey fs k v = fs ++ [(k, v)] := by
  induction fs with
  | nil => rfl
  | cons kv tl ih =>
      obtain ⟨k0, v0⟩ := kv
      simp only [List.map_cons, List.mem_cons] at h
      push_neg at h
      rw [setKey, if_neg (by exact fun he => h.1 he.symm), ih h.2]
      rfl

theorem markerParsed_acc (m : Marker) : ∀ acc,
    (m.map Prod.fst).Nodup →
    (∀ p ∈ m, p.1 ∉ acc.map Prod.fst) →
    m.foldl (fun a p => setKey a p.1 (mvalParsed p.2)) acc
      = acc ++ m.map (fun p => (p.1, mvalParsed p.2)) := by
  induction m with
  | nil => intro acc _ _; simp
  | cons kv tl ih =>
      obtain ⟨k, v⟩ := kv
      intro acc hnodup hdisj
      simp only [List.map_cons, List.nodup_cons] at hnodup
      simp only [List.foldl_cons]
      rw [setKey_not_mem acc k (mvalParsed v) (hdisj (k, v) (by simp)),
        ih (acc ++ [(k, mvalParsed v)]) hnodup.2 ?_]
      · simp
      · intro p hp
        simp only [List.map_append, List.mem_append, List.map_map]
        push_neg
        refine ⟨hdisj p (by simp [hp]), ?_⟩
        simp only [List.map_cons, List.map_nil, List.mem_singleton]
        intro he
        exact hnodup.1 (by rw [← he]; exact List.mem_map_of_mem Prod.fst hp)

theorem markerParsed_eq_map (m : Marker) (hnodup : (m.map Prod.fst).Nodup) :
    markerParsed m = m.map (fun p => (p.1, mvalParsed p.2)) := by
  rw [markerParsed, markerParsed_acc m [] hnodup (by simp)]
  rfl

theorem mvalParsed_eq_toJS (v : MVal) (h : ∀ iso, v ≠ MVal.date iso) :
    mvalParsed v = mvalToJS v := by
  cases v with
  | date iso => exact absurd rfl (h iso)
  | null => rfl
  | bool b => rfl
  | num n => rfl
  | str s => rfl

theorem mapParsed_eq_mapJS (l : Marker) (h : ∀ p ∈ l, ∀ iso, p.2 ≠ MVal.date iso) :
    l.map (fun p => (p.1, mvalParsed p.2)) = l.map (fun p => (p.1, mvalToJS p.2)) := by
  refine List.map_congr_left (fun p hp => ?_)
  rw [mvalParsed_eq_toJS p.2 (h p hp)]

theorem setKey_map_created (m : Marker) (iso : String) :
    (m.map Prod.fst).Nodup →
    (∀ p ∈ m, ∀ iso', p.2 = MVal.date iso' → p.1 = "created_at") →
    mlookup m "created_at" = some (.date iso) →
    setKey (m.map fun p => (p.1, mvalParsed p.2)) "created_at" (.date iso)
      = m.map fun p => (p.1, mvalToJS p.2) := by
  induction m with
  | nil => intro _ _ h; simp [mlookup] at h
  | cons kv tl ih =>
      obtain ⟨k, v⟩ := kv
      intro hnodup hdates hlook
      simp only [List.map_cons, List.nodup_cons] at hnodup
      rw [mlookup] at hlook
      by_cases hk : k = "created_at"
      · rw [if_pos hk] at hlook
        cases hlook
        subst hk
        simp only [List.map_cons, setKey, reduceIte]
        refine congrArg (fun l => ("created_at", JSValue.date iso) :: l)
          (mapParsed_eq_mapJS tl ?_)
        intro p hp iso' hpd
        have hp1 : p.1 = "created_at" := hdates p (by simp [hp]) iso' hpd
        exact absurd (by rw [← hp1]; exact List.mem_map_of_mem Prod.fst hp) hnodup.1
      · rw [if_neg hk] at hlook
        have hv : ∀ iso', v ≠ MVal.date iso' := by
          intro iso' hd
          exact hk (hdates (k, v) (by simp) iso' hd)
        simp only [List.map_cons, setKey, if_neg hk]
        rw [ih hnodup.2 (fun p hp => hdates p (by simp [hp])) hlook,
          mvalParsed_eq_toJS v hv]

theorem getKey_setKey_self (fs : List (String × JSValue)) (k : String) (v : JSValue) :
    getKey (setKey fs k v) k = some v := by
  induction fs with
  | nil => simp [setKey, getKey]
  | cons kv tl ih =>
      obtain ⟨k0, v0⟩ := kv
      rw [setKey]
      by_cases hk : k0 = k
      · rw [if_pos hk, getKey, if_pos hk]
      · rw [if_neg hk, getKey, if_neg hk]
        exact ih

theorem getKey_setKey_ne (fs : List (String × JSValue)) (k k' : String) (v : JSValue)
    (h : k' ≠ k) : getKey (setKey fs k v) k' = getKey fs k' := by
  induction fs with
  | nil =>
      rw [setKey, getKey, getKey, if_neg (fun he => h he.symm)]
      rfl
  | cons kv tl ih =>
      obtain ⟨k0, v0⟩ := kv
      rw [setKey]
      by_cases hk : k0 = k
      · subst hk
        rw [if_pos rfl, getKey, getKey, if_neg (fun he => h he.symm),
          if_neg (fun he => h he.symm)]
      · rw [if_neg hk, getKey, getKey]
        by_cases hk' : k0 = k'
        · rw [if_pos hk', if_pos hk']
        · rw [if_neg hk', if_neg hk', ih]

/-! ## Round-trip of the full token codec -/

theorem b64encodeBytes_ne_nil (bs : List Nat) (h : bs ≠ []) : b64encodeBytes bs ≠ [] := by
  match bs with
  | [] => exact absurd rfl h
  | [b0] => simp [b64encodeBytes]
  | [b0, b1] => simp [b64encodeBytes]
  | b0 :: b1 :: b2 :: rest => simp [b64encodeBytes]

theorem createToken_eq (m : Marker) (sort : List String) (hsort : sort ≠ []) :
    createContinuationToken (some m) sort
      = some (b64encode (utf8Encode (String.mk (renderPayload m sort)))) := by
  rw [createContinuationToken, if_neg (by simp [hsort])]

theorem createToken_ne_empty (m : Marker) (sort : List String) :
    b64encode (utf8Encode (String.mk (renderPayload m sort))) ≠ "" := by
  intro h
  have hdata : (b64encodeBytes (utf8Encode (String.mk (renderPayload m sort)))) = [] := by
    have := congrArg String.data h
    simpa [b64encode] using this
  refine b64encodeBytes_ne_nil _ ?_ hdata
  show utf8EncList (renderPayload m sort) ≠ []
  rw [renderPayload, utf8EncList]
  intro hh
  rw [List.append_eq_nil] at hh
  exact utf8EncChar_ne_nil ('{' : Char).toNat hh.1

theorem mvalParsed_str (s : String) : mvalParsed (.str s) = .str s := rfl

theorem mvalParsed_date (iso : String) : mvalParsed (.date iso) = .str iso := rfl

theorem mvalParsed_null : mvalParsed .null = .null := rfl

theorem mvalParsed_bool (b : Bool) : mvalParsed (.bool b) = .bool b := rfl

theorem mvalParsed_num (n : Int) : mvalParsed (.num n) = .num n := rfl

theorem decodePipeline_token (m : Marker) (sort : List String)
    (hsort : sort ≠ [])
    (hnodup : (m.map Prod.fst).Nodup)
    (hdates : ∀ p ∈ m, ∀ iso, p.2 = MVal.date iso → p.1 = "created_at" ∧ iso ≠ "")
    (hstr : ∀ s, ("created_at", MVal.str s) ∈ m → s = "") :
    decodePipeline (b64encode (utf8Encode (String.mk (renderPayload m sort))))
      = .ok (.obj [("data", .obj (m.map fun p => (p.1, mvalToJS p.2))),
          ("sort", .arr (sort.map JSValue.str))]) := by
  have hb : b64decode (b64encode (utf8Encode (String.mk (renderPayload m sort))))
      = some (utf8Encode (String.mk (renderPayload m sort))) := by
    show b64decodeChars (String.mk (b64encodeBytes (utf8Encode
      (String.mk (renderPayload m sort))))).data = _
    rw [show (String.mk (b64encodeBytes (utf8Encode (String.mk (renderPayload m sort))))).data
        = b64encodeBytes (utf8Encode (String.mk (renderPayload m sort))) from rfl]
    exact b64_roundtrip _ (utf8Encode_bytes_lt _)
  simp only [decodePipeline, hb, utf8_roundtrip, jsonParse_renderPayload m sort hsort]
  show Except.ok (JSValue.obj (setKey
      [("data", .obj (markerParsed m)), ("sort", .arr (sort.map JSValue.str))] "data"
      (match getKey (markerParsed m) "created_at" with
       | some (.str s) =>
           if s ≠ "" then JSValue.obj (setKey (markerParsed m) "created_at" (.date s))
           else JSValue.obj (markerParsed m)
       | _ => JSValue.obj (markerParsed m))))
    = .ok (.obj [("data", .obj (m.map fun p => (p.1, mvalToJS p.2))),
        ("sort", .arr (sort.map JSValue.str))])
  rw [markerParsed_eq_map m hnodup, getKey_markerMap m mvalParsed "created_at"]
  have hmemdate : ∀ p ∈ m, ∀ iso, p.2 = MVal.date iso
      → mlookup m "created_at" = some (.date iso) := by
    intro p hp iso hpd
    obtain ⟨hp1, _⟩ := hdates p hp iso hpd
    have hpe : ("created_at", MVal.date iso) = p := by
      obtain ⟨p1, p2⟩ := p
      simp only at hp1 hpd
      rw [hp1, hpd]
    exact mem_mlookup m _ _ (hpe ▸ hp) hnodup
  cases hca : mlookup m "created_at" with
  | none =>
      simp only [Option.map_none']
      rw [mapParsed_eq_mapJS m (fun p hp iso hpd => by
        rw [hmemdate p hp iso hpd] at hca
        exact Option.noConfusion hca)]
      rfl
  | some v =>
      cases v with
      | str s =>
          have hs : s = "" := hstr s (mlookup_mem m _ _ hca)
          subst hs
          simp only [Option.map_some', mvalParsed_str, ne_eq, not_true_eq_false, reduceIte]
          rw [mapParsed_eq_mapJS m (fun p hp iso hpd => by
            rw [hmemdate p hp iso hpd] at hca
            exact absurd (Option.some.inj hca) (by simp))]
          rfl
      | date iso =>
          have hmem := mlookup_mem m _ _ hca
          have hiso : iso ≠ "" := (hdates _ hmem iso rfl).2
          simp only [Option.map_some', mvalParsed_date, ne_eq, hiso, not_false_eq_true, reduceIte]
          rw [setKey_map_created m iso hnodup
            (fun p hp iso' hpd => (hdates p hp iso' hpd).1) hca]
          rfl
      | null =>
          simp only [Option.map_some', mvalParsed_null]
          rw [mapParsed_eq_mapJS m (fun p hp iso hpd => by
            rw [hmemdate p hp iso hpd] at hca
            exact absurd (Option.some.inj hca) (by simp))]
          rfl
      | bool b =>
          simp only [Option.map_some', mvalParsed_bool]
          rw [mapParsed_eq_mapJS m (fun p hp iso hpd => by
            rw [hmemdate p hp iso hpd] at hca
            exact absurd (Option.some.inj hca) (by simp))]
          rfl
      | num n =>
          simp only [Option.map_some', mvalParsed_num]
          rw [mapParsed_eq_mapJS m (fun p hp iso hpd => by
            rw [hmemdate p hp iso hpd] at hca
            exact absurd (Option.some.inj hca) (by simp))]
          rfl

/-! ## Claim theorems -/

/-- C1: Round-trip of the token codec, as amended.  For a non-empty sort
list and a marker object (unique keys) containing all fields referenced by
the sort, whose values are scalars except that the `created_at` field may
hold a `Date` (with its nonempty ISO serialization), and whose
`created_at` field is not a non-empty plain string,
`parseContinuationToken (createContinuationToken marker sort)` succeeds
and returns the marker and the sort unchanged, with a `Date`-valued
`created_at` reproduced as an equivalent `Date` (equal ISO serialization)
after its ISO-8601 string round-trip.  (The claim as frozen, without the
last two restrictions, is refuted by `c1_roundTrip_counterexample`.) -/
theorem c1_roundTrip_amended (m : Marker) (sort : List String)
    (hsort : sort ≠ [])
    (hnodup : (m.map Prod.fst).Nodup)
    (hcover : ∀ f ∈ sort, (mlookup m f).isSome)
    (hdates : ∀ p ∈ m, ∀ iso, p.2 = MVal.date iso → p.1 = "created_at" ∧ iso ≠ "")
    (hstr : ∀ s, ("created_at", MVal.str s) ∈ m → s = "") :
    parseContinuationToken (createContinuationToken (some m) sort)
      = .ok (some (.obj [("data", .obj (m.map fun p => (p.1, mvalToJS p.2))),
          ("sort", .arr (sort.map JSValue.str))])) := by
  rw [createToken_eq m sort hsort, parseContinuationToken,
    if_neg (createToken_ne_empty m sort),
    decodePipeline_token m sort hsort hnodup hdates hstr]

/-- Witness for C1: a concrete marker with a `Date`-valued `created_at`
and a numeric tiebreaker field round-trips to itself. -/
theorem c1_roundTrip_witness :
    parseContinuationToken (createContinuationToken
        (some [("created_at", MVal.date "2024-01-01T00:00:00.000Z"), ("id", MVal.num 7)])
        ["created_at", "id"])
      = .ok (some (.obj
          [("data", .obj [("created_at", JSValue.date "2024-01-01T00:00:00.000Z"),
                          ("id", JSValue.num 7)]),
           ("sort", .arr [.str "created_at", .str "id"])])) :=
  c1_roundTrip_amended
    [("created_at", MVal.date "2024-01-01T00:00:00.000Z"), ("id", MVal.num 7)]
    ["created_at", "id"]
    (by simp)
    (by decide)
    (by decide)
    (by
      intro p hp iso hpd
      simp only [List.mem_cons, List.not_mem_nil, or_false] at hp
      rcases hp with rfl | rfl
      · cases hpd
        exact ⟨rfl, by decide⟩
      · exact absurd hpd (by simp))
    (by
      intro s hs
      simp at hs)

/-- Counterexample to C1 as frozen: a marker whose `created_at` holds the
non-empty plain string `"x"` satisfies the claim's hypotheses (the sort is
non-empty and the marker binds every sort field), yet the decoded marker
holds `new Date("x")` — a `Date` value, not the original string — so
`marker' == marker` fails under any comparison (in JS, `new Date("x")` is
`Invalid Date`, not equal to `"x"`). -/
theorem c1_roundTrip_counterexample :
    parseContinuationToken (createContinuationToken
        (some [("created_at", MVal.str "x")]) ["created_at"])
      = .ok (some (.obj
          [("data", .obj [("created_at", JSValue.date "x")]),
           ("sort", .arr [.str "created_at"])]))
    ∧ JSValue.date "x" ≠ JSValue.str "x" :=
  ⟨rfl, fun h => JSValue.noConfusion h⟩

/-- C2 (code bug): evaluating `buildCursorWhere` at the claim's inputs.
For `{created_at: {desc: T}}` with sort `["created_at"]` the code returns
`{created_at: {gt: {desc: T}}}`, not the claimed `created_at < T`: the
direction comes from `Object.values(entry)[0] === 'desc'` (the stored
*value*, which is `T`, never the string `'desc'`), so `gt` is chosen, and
the whole stored entry `{desc: T}` — not `T` — is used as the comparison
value.  For `{id: {asc: 5}}` the direction happens to be `gt` as claimed
but the value is again the wrapper `{asc: 5}`, not `5`.  This contradicts
the inline comment (`'desc'` should mean `<`) and the JSDoc marker shape:
the claim describes the intent, the code is the slip. -/
theorem c2_singleFieldPredicate_eval :
    buildCursorWhere [("created_at", .obj [("desc", .str "2024-05-01T00:00:00.000Z")])]
        ["created_at"]
      = .ok (.obj [("created_at",
          .obj [("gt", .obj [("desc", .str "2024-05-01T00:00:00.000Z")])])])
    ∧ buildCursorWhere [("id", .obj [("asc", .num 5)])] ["id"]
      = .ok (.obj [("id", .obj [("gt", .obj [("asc", .num 5)])])]) :=
  ⟨rfl, rfl⟩

/-- C3 (code bug): evaluating `buildCursorWhere` at the claim's two-field
input.  The OR/tie-break *shape* matches the claim, but both comparisons
use `gt` instead of the claimed `lt` (same `Object.values` slip as C2),
the comparison values are the whole stored entries `{desc: T}` / `{desc: 7}`
rather than `T` / `7`, and the tie-break equates `created_at` with the
wrapper `{desc: T}` rather than with `T`. -/
theorem c3_compositeTieBreak_eval :
    buildCursorWhere
        [("created_at", .obj [("desc", .str "2024-05-01T00:00:00.000Z")]),
         ("id", .obj [("desc", .num 7)])]
        ["created_at", "id"]
      = .ok (.obj [("OR", .arr
          [ .obj [("created_at",
              .obj [("gt", .obj [("desc", .str "2024-05-01T00:00:00.000Z")])])],
            .obj [("created_at", .obj [("desc", .str "2024-05-01T00:00:00.000Z")]),
                  ("id", .obj [("gt", .obj [("desc", .num 7)])])] ])]) :=
  rfl

/-- C5: no-op on empty input.  `createContinuationToken` yields no token
whenever the marker is `null`/absent (any sort) or the sort list is empty
(any marker), and `parseContinuationToken` of `undefined`/`null` yields no
result without raising. -/
theorem c5_noopOnEmptyInput :
    (∀ sort : List String, createContinuationToken none sort = none)
    ∧ (∀ data : Option Marker, createContinuationToken data [] = none)
    ∧ parseContinuationToken none = .ok none := by
  refine ⟨fun sort => rfl, fun data => ?_, rfl⟩
  cases data with
  | none => rfl
  | some m => rfl

/-- C9: sort extraction.  For every list of single-key field-to-direction
objects, `orderByToSort` returns each entry's single key as a string, in
order, discarding the direction values; duplicates are kept (the theorem
quantifies over arbitrary key-value lists, including ones with repeated
keys). -/
theorem c9_sortExtraction (ps : List (String × JSValue)) :
    orderByToSort (ps.map fun p => JSValue.obj [p])
      = .ok (ps.map fun p => JSValue.str p.1) := by
  induction ps with
  | nil => rfl
  | cons p tl ih =>
      simp only [List.map_cons, orderByToSort, jsObjectKeys, ih]
      rfl

/-- C8: two-field truncation.  With more than two sort fields,
`buildCursorWhere` returns exactly the result it returns for the
two-element prefix: fields beyond the first two never affect the filter. -/
theorem c8_twoFieldTruncation (cursorData : List (String × JSValue)) (sort : List String)
    (h : 2 < sort.length) :
    buildCursorWhere cursorData sort = buildCursorWhere cursorData (sort.take 2) := by
  cases sort with
  | nil => simp at h
  | cons f0 tl =>
      cases tl with
      | nil => simp at h
      | cons f1 tl2 => rfl

/-- Witness for C8 at a concrete three-field sort. -/
theorem c8_twoFieldTruncation_witness :
    buildCursorWhere [("a", .obj [("asc", .num 1)])] ["a", "b", "c"]
      = buildCursorWhere [("a", .obj [("asc", .num 1)])] (["a", "b", "c"].take 2) :=
  c8_twoFieldTruncation [("a", .obj [("asc", .num 1)])] ["a", "b", "c"] (by decide)

/-- C7: secondary direction reuse.  Whenever `buildCursorWhere` succeeds
on a sort with at least two (distinct) fields, the produced filter applies
to the secondary field `sort[1]` the *same* comparison operator
(`"lt"`/`"gt"`) as chosen for the primary field `sort[0]`, and that
operator is computed from the primary field's stored entry alone
(`Object.values(cursorData[sort[0]])[0] === 'desc'`) — the secondary
field's own stored direction indicator never influences the choice. -/
theorem c7_secondaryDirectionReuse (cursorData : List (String × JSValue))
    (f0 f1 : String) (rest : List String) (w : JSValue)
    (hne : f0 ≠ f1)
    (h : buildCursorWhere cursorData (f0 :: f1 :: rest) = .ok w) :
    ∃ vals, jsObjectValues (getProp cursorData f0) = .ok vals
      ∧ w = .obj [("OR", .arr
          [ .obj [(f0, .obj [(if isStrDesc vals.head? then "lt" else "gt",
              getProp cursorData f0)])],
            .obj [(f0, getProp cursorData f0),
                  (f1, .obj [(if isStrDesc vals.head? then "lt" else "gt",
                    getProp cursorData f1)])] ])] := by
  rw [buildCursorWhere] at h
  cases hv : jsObjectValues (getProp cursorData f0) with
  | error e => rw [hv] at h; cases h
  | ok vals =>
      rw [hv] at h
      refine ⟨vals, rfl, ?_⟩
      have hw := Except.ok.inj h
      rw [← hw, setKey, setKey, if_neg hne, setKey]

/-- Witness for C7 at a concrete two-field call: with the primary entry
`{x: 'desc'}` (whose first value *is* the string `'desc'`), both fields
get the `lt` operator. -/
theorem c7_secondaryDirectionReuse_witness :
    buildCursorWhere [("a", JSValue.obj [("x", .str "desc")]), ("b", .obj [("asc", .num 2)])]
        ["a", "b"]
      = .ok (.obj [("OR", .arr
          [ .obj [("a", .obj [("lt", .obj [("x", .str "desc")])])],
            .obj [("a", .obj [("x", .str "desc")]),
                  ("b", .obj [("lt", .obj [("asc", .num 2)])])] ])])
    ∧ JSValue.obj [("OR", .arr
          [ .obj [("a", .obj [("lt", .obj [("x", .str "desc")])])],
            .obj [("a", .obj [("x", .str "desc")]),
                  ("b", .obj [("lt", .obj [("asc", .num 2)])])] ])]
      = .obj [("OR", .arr
          [ .obj [("a", .obj [(if isStrDesc (some (JSValue.str "desc")) then "lt" else "gt",
              .obj [("x", .str "desc")])])],
            .obj [("a", .obj [("x", .str "desc")]),
                  ("b", .obj [(if isStrDesc (some (JSValue.str "desc")) then "lt" else "gt",
                    .obj [("asc", .num 2)])])] ])] := by
  have h : buildCursorWhere
      [("a", JSValue.obj [("x", .str "desc")]), ("b", .obj [("asc", .num 2)])] ["a", "b"]
    = .ok (.obj [("OR", .arr
        [ .obj [("a", .obj [("lt", .obj [("x", .str "desc")])])],
          .obj [("a", .obj [("x", .str "desc")]),
                ("b", .obj [("lt", .obj [("asc", .num 2)])])] ])]) := rfl
  obtain ⟨vals, hv, hw⟩ := c7_secondaryDirectionReuse
    [("a", JSValue.obj [("x", .str "desc")]), ("b", .obj [("asc", .num 2)])]
    "a" "b" [] _ (by decide) h
  have hvals : vals = [JSValue.str "desc"] := by
    have h2 : Except.ok (ε := JSError) [JSValue.str "desc"] = .ok vals := by
      rw [← hv]
      rfl
    exact (Except.ok.inj h2).symm
  subst hvals
  exact ⟨h, hw⟩

/-- C10, as amended: for a non-empty sort list, `buildCursorWhere` throws
exactly when the marker binds the primary field `sort[0]` to `null` or
`undefined` (including an absent binding, which reads as `undefined`), and
what it throws is the raw engine `TypeError` from
`Object.values(undefined)` — not a `BadRequestError` and not a predicate.
For every other binding — object or not — the call is total and returns a
filter.  (The frozen claim's stronger assertion that the call is *only*
total for non-null object values is refuted by
`c10_primaryPrecondition_counterexample`.) -/
theorem c10_primaryPrecondition_amended (cursorData : List (String × JSValue))
    (f0 : String) (rest : List String) :
    (isNullish (getProp cursorData f0) = true →
      buildCursorWhere cursorData (f0 :: rest)
        = .error (.typeError "Cannot convert undefined or null to object"))
    ∧ (isNullish (getProp cursorData f0) = false →
      ∃ w, buildCursorWhere cursorData (f0 :: rest) = .ok w) := by
  constructor
  · intro h
    rw [buildCursorWhere]
    cases hv : getProp cursorData f0 with
    | null => rfl
    | undefined => rfl
    | bool b => rw [hv] at h; cases h
    | num n => rw [hv] at h; cases h
    | str s => rw [hv] at h; cases h
    | date iso => rw [hv] at h; cases h
    | arr es => rw [hv] at h; cases h
    | obj fs => rw [hv] at h; cases h
  · intro h
    rw [buildCursorWhere]
    cases hvv : getProp cursorData f0
    case undefined => rw [hvv] at h; simp [isNullish] at h
    case null => rw [hvv] at h; simp [isNullish] at h
    all_goals cases rest
    all_goals exact ⟨_, rfl⟩

/-- Witness for C10: with an empty marker the primary read is `undefined`
and the call throws the raw `TypeError`; with a bound primary it returns a
filter. -/
theorem c10_primaryPrecondition_witness :
    buildCursorWhere [] ["id"]
      = .error (.typeError "Cannot convert undefined or null to object")
    ∧ ∃ w, buildCursorWhere [("id", JSValue.num 5)] ["id"] = .ok w :=
  ⟨(c10_primaryPrecondition_amended [] "id" []).1 rfl,
   (c10_primaryPrecondition_amended [("id", JSValue.num 5)] "id" []).2 rfl⟩

/-- Counterexample to C10 as frozen: the claim allows totality *only* when
the primary field is bound to a non-null object, but binding `id` to the
plain number `5` (not an object) still yields a predicate:
`Object.values(5)` is `[]`, no exception occurs. -/
theorem c10_primaryPrecondition_counterexample :
    buildCursorWhere [("id", JSValue.num 5)] ["id"]
      = .ok (.obj [("id", .obj [("gt", .num 5)])])
    ∧ isObjV (JSValue.num 5) = false :=
  ⟨rfl, rfl⟩

/-- Anatomy of a successful decode: the `try` body of
`parseContinuationToken` succeeds exactly by base64- and UTF-8-decoding
the token, `JSON.parse`-ing an object with an object-typed `data` and an
array `sort`, and rewriting `data.created_at` to a `Date` when (and only
when) it is a non-empty string, everything else passing through
unchanged. -/
theorem decodePipeline_ok (t : String) (v : JSValue) (h : decodePipeline t = .ok v) :
    ∃ bytes js pf dv,
      b64decode t = some bytes ∧ utf8Decode bytes = some js ∧ jsonParse js = some (.obj pf)
      ∧ getKey pf "data" = some dv
      ∧ typeofObject (some dv) = true
      ∧ isArrayOpt (getKey pf "sort") = true
      ∧ ((∃ dfs s, dv = .obj dfs ∧ getKey dfs "created_at" = some (.str s) ∧ s ≠ ""
            ∧ v = .obj (setKey pf "data" (.obj (setKey dfs "created_at" (.date s)))))
         ∨ ((¬ ∃ dfs s, dv = .obj dfs ∧ getKey dfs "created_at" = some (.str s) ∧ s ≠ "")
            ∧ isNullish dv = false ∧ v = .obj (setKey pf "data" dv))) := by
  rw [decodePipeline.eq_def] at h
  split at h
  · cases h
  · rename_i bytes hbytes
    split at h
    · cases h
    · rename_i js hjs
      split at h
      · cases h
      · rename_i parsed hparsed
        split at h
        · rename_i pf
          split at h
          · cases h
          · rename_i dfs elems hdata hsort
            refine ⟨bytes, js, pf, .obj dfs, hbytes, hjs, by rw [hparsed], hdata, rfl,
              by rw [hsort]; rfl, ?_⟩
            split at h
            · rename_i s hca
              split at h
              · rename_i hs
                cases h
                exact Or.inl ⟨dfs, s, rfl, hca, hs, rfl⟩
              · rename_i hs
                rw [not_not] at hs
                cases h
                refine Or.inr ⟨?_, rfl, rfl⟩
                rintro ⟨dfs2, s2, hobj, hget, hs2⟩
                cases hobj
                rw [hca] at hget
                cases hget
                exact hs2 hs
            · rename_i hno
              cases h
              refine Or.inr ⟨?_, rfl, rfl⟩
              rintro ⟨dfs2, s2, hobj, hget, hs2⟩
              cases hobj
              exact hno s2 hget
          · rename_i es elems hdata hsort
            refine ⟨bytes, js, pf, .arr es, hbytes, hjs, by rw [hparsed], hdata, rfl,
              by rw [hsort]; rfl, ?_⟩
            cases h
            refine Or.inr ⟨?_, rfl, rfl⟩
            rintro ⟨dfs2, s2, hobj, -, -⟩
            cases hobj
          · rename_i iso elems hdata hsort
            refine ⟨bytes, js, pf, .date iso, hbytes, hjs, by rw [hparsed], hdata, rfl,
              by rw [hsort]; rfl, ?_⟩
            cases h
            refine Or.inr ⟨?_, rfl, rfl⟩
            rintro ⟨dfs2, s2, hobj, -, -⟩
            cases hobj
          · cases h
        · cases h

/-- C4: single error kind.  For every non-empty token string,
`parseContinuationToken` either succeeds with a structurally valid result
— an object whose `data` property is object-typed and whose `sort`
property is an array — or fails with exactly the client-input
`BadRequestError` carrying the fixed invalid-cursor message; no internal
failure cause (bad base64/UTF-8, malformed JSON, missing or mistyped
`data`/`sort`, the `TypeError` on a `null` `data`) escapes as a different
error or reaches the message. -/
theorem c4_singleErrorKind (t : String) (h : t ≠ "") :
    (∃ r, parseContinuationToken (some t) = .ok (some r)
       ∧ typeofObject (propRead r "data") = true
       ∧ isArrayOpt (propRead r "sort") = true)
    ∨ parseContinuationToken (some t) = .error (.badRequest invalidCursorMsg) := by
  rw [parseContinuationToken, if_neg h]
  cases hd : decodePipeline t with
  | error e => exact Or.inr rfl
  | ok v =>
      left
      obtain ⟨bytes, js, pf, dv, -, -, -, hdata, htype, hsortArr, hcase⟩ :=
        decodePipeline_ok t v hd
      refine ⟨v, rfl, ?_, ?_⟩
      · rcases hcase with ⟨dfs, s, hdv, -, -, hv⟩ | ⟨-, -, hv⟩
        · subst hv
          show typeofObject (getKey (setKey pf "data"
            (.obj (setKey dfs "created_at" (.date s)))) "data") = true
          rw [getKey_setKey_self]
          rfl
        · subst hv
          show typeofObject (getKey (setKey pf "data" dv) "data") = true
          rw [getKey_setKey_self]
          exact htype
      · rcases hcase with ⟨dfs, s, hdv, -, -, hv⟩ | ⟨-, -, hv⟩ <;>
          · subst hv
            show isArrayOpt (getKey (setKey pf "data" _) "sort") = true
            rw [getKey_setKey_ne pf "data" "sort" _ (by decide)]
            exact hsortArr

/-- Witness for C4 at a concrete malformed token: decoding fails with the
single `BadRequestError`. -/
theorem c4_singleErrorKind_witness :
    (∃ r, parseContinuationToken (some "!!!") = .ok (some r)
       ∧ typeofObject (propRead r "data") = true
       ∧ isArrayOpt (propRead r "sort") = true)
    ∨ parseContinuationToken (some "!!!") = .error (.badRequest invalidCursorMsg) :=
  c4_singleErrorKind "!!!" (by decide)

/-- C6, as amended: temporal reconstruction on decode.  Every successful
`parseContinuationToken` run factors through base64/UTF-8 decoding and
`JSON.parse`; when the parsed `data` object has a created_at field
holding a *non-empty* string `s`, the returned object is the parsed one
with exactly that field overwritten by `new Date(s)`; in every other case
(including the empty string, which is falsy and skips reconstruction) the
`data` value — and with it every field — is returned unchanged.  (The
frozen claim, which promises reconstruction for *every* string value, is
refuted at the empty string by `c6_temporalReconstruction_counterexample`.) -/
theorem c6_temporalReconstruction_amended (t : String) (r : JSValue)
    (h : parseContinuationToken (some t) = .ok (some r)) :
    ∃ bytes js pf dv,
      b64decode t = some bytes ∧ utf8Decode bytes = some js ∧ jsonParse js = some (.obj pf)
      ∧ getKey pf "data" = some dv
      ∧ ((∃ dfs s, dv = .obj dfs ∧ getKey dfs "created_at" = some (.str s) ∧ s ≠ ""
            ∧ r = .obj (setKey pf "data" (.obj (setKey dfs "created_at" (.date s)))))
         ∨ ((¬ ∃ dfs s, dv = .obj dfs ∧ getKey dfs "created_at" = some (.str s) ∧ s ≠ "")
            ∧ r = .obj (setKey pf "data" dv))) := by
  by_cases ht : t = ""
  · subst ht
    rw [parseContinuationToken] at h
    simp at h
  · rw [parseContinuationToken, if_neg ht] at h
    cases hd : decodePipeline t with
    | error e => rw [hd] at h; cases h
    | ok v =>
        rw [hd] at h
        cases h
        obtain ⟨bytes, js, pf, dv, hbytes, hjs, hp, hdata, -, -, hcase⟩ :=
          decodePipeline_ok t r hd
        refine ⟨bytes, js, pf, dv, hbytes, hjs, hp, hdata, ?_⟩
        rcases hcase with ⟨dfs, s, hdv, hca, hs, hv⟩ | ⟨hno, -, hv⟩
        · exact Or.inl ⟨dfs, s, hdv, hca, hs, hv⟩
        · exact Or.inr ⟨hno, hv⟩

/-- Counterexample to C6 as frozen: a token whose `data.created_at` is the
*empty* string decodes successfully, but the field comes back as the
string `""`, not as a date/time value — the truthiness guard
(`parsed.data.created_at && ...`) skips reconstruction for a falsy
string. -/
theorem c6_temporalReconstruction_counterexample :
    parseContinuationToken (createContinuationToken
        (some [("created_at", MVal.str "")]) ["x"])
      = .ok (some (.obj
          [("data", .obj [("created_at", JSValue.str "")]),
           ("sort", .arr [.str "x"])]))
    ∧ isDateV (JSValue.str "") = false :=
  ⟨rfl, rfl⟩

/-- Witness for C6 at a concrete token (the base64 of
`{"data":{"created_at":"x"},"sort":["created_at"]}`): decoding succeeds
and the non-empty string `created_at` comes back as `new Date("x")`. -/
theorem c6_temporalReconstruction_witness :
    ∃ bytes js pf dv,
      b64decode (b64encode (utf8Encode
          (String.mk (renderPayload [("created_at", MVal.str "x")] ["created_at"]))))
        = some bytes
      ∧ utf8Decode bytes = some js ∧ jsonParse js = some (.obj pf)
      ∧ getKey pf "data" = some dv
      ∧ ((∃ dfs s, dv = .obj dfs ∧ getKey dfs "created_at" = some (.str s) ∧ s ≠ ""
            ∧ JSValue.obj [("data", .obj [("created_at", JSValue.date "x")]),
                 ("sort", .arr [.str "created_at"])]
              = .obj (setKey pf "data" (.obj (setKey dfs "created_at" (.date s)))))
         ∨ ((¬ ∃ dfs s, dv = .obj dfs ∧ getKey dfs "created_at" = some (.str s) ∧ s ≠ "")
            ∧ JSValue.obj [("data", .obj [("created_at", JSValue.date "x")]),
                 ("sort", .arr [.str "created_at"])]
              = .obj (setKey pf "data" dv))) :=
  c6_temporalReconstruction_amended
    (b64encode (utf8Encode
      (String.mk (renderPayload [("created_at", MVal.str "x")] ["created_at"]))))
    (.obj [("data", .obj [("created_at", JSValue.date "x")]),
           ("sort", .arr [.str "created_at"])])
    rfl
